import Mathlib

/-
  Verification development for the multiemu core emulator substrate.

  Shallow embedding of:
  - the MemoryTranslationTable dispatch loops (crates/multiemu/src/memory.rs):
    read / write / preview, with the bus-width address mask, the bounded
    pending-access stack (ArrayVec of capacity MAX_ACCESS_SIZE = 8, where a
    push onto a full stack is a hard failure), the per-component error
    collection, and the redirect-to-self assertion.
  - StandardMemory (crates/multiemu/src/definitions/misc/memory/standard.rs):
    the chunked (4096-byte) backing store, its read/write chunk loops,
    denial checks, and snapshot save/load.
  - RomMemory (crates/multiemu/src/definitions/misc/memory/rom.rs).
  - the CHIP-8 display sprite blit
    (crates/multiemu/src/definitions/chip8/display/mod.rs).

  Machine integers (usize, u8) are modelled as Nat; addresses are Nat and the
  bus mask is taken explicitly modulo 2 ^ width.  Rust operations that panic
  (asserts, unwraps, ArrayVec overflow, out-of-bounds slicing, todo!) are
  modelled as the `none` value of an Option result, or as a dedicated
  `fatal` outcome of the dispatch loop.  Loops whose termination depends on
  component behaviour are given explicit fuel; `spin` marks fuel exhaustion,
  so "the loop never terminates" is rendered as "every fuel yields `spin`".
  RangeMap values are modelled as association lists of half-open ranges in
  the order the map would yield them; theorems read them pointwise.
-/

set_option maxHeartbeats 1000000

namespace Multiemu

/-- Valid buffer lengths for memory accesses (`VALID_ACCESS_SIZES` in memory.rs). -/
def VALID_ACCESS_SIZES : List Nat := [1, 2, 4, 8]

/-- Capacity of the pending-access stack (`MAX_ACCESS_SIZE` in memory.rs:
the largest valid access size, i.e. 8). -/
def MAX_ACCESS_SIZE : Nat := 8

/-- Record a component returns for a sub-range of a read (memory.rs `ReadMemoryRecord`). -/
inductive ReadMemoryRecord where
  | denied
  | redirect (address : Nat)
deriving DecidableEq

/-- Record a component returns for a sub-range of a write (memory.rs `WriteMemoryRecord`). -/
inductive WriteMemoryRecord where
  | denied
  | redirect (address : Nat)
deriving DecidableEq

/-- Record a component returns for a sub-range of a preview (memory.rs `PreviewMemoryRecord`). -/
inductive PreviewMemoryRecord where
  | denied
  | redirect (address : Nat)
  | impossible
deriving DecidableEq

/-- Failure type surfaced to the caller of `read` (memory.rs `ReadMemoryOperationErrorFailureType`). -/
inductive ReadMemoryOperationErrorFailureType where
  | denied
  | outOfBus
deriving DecidableEq

/-- Failure type surfaced to the caller of `write` (memory.rs `WriteMemoryOperationErrorFailureType`). -/
inductive WriteMemoryOperationErrorFailureType where
  | denied
  | outOfBus
deriving DecidableEq

/-- Failure type surfaced to the caller of `preview` (memory.rs `PreviewMemoryOperationErrorFailureType`). -/
inductive PreviewMemoryOperationErrorFailureType where
  | denied
  | outOfBus
  | impossible
deriving DecidableEq

abbrev ReadErrorMap := List ((Nat × Nat) × ReadMemoryOperationErrorFailureType)
abbrev WriteErrorMap := List ((Nat × Nat) × WriteMemoryOperationErrorFailureType)
abbrev PreviewErrorMap := List ((Nat × Nat) × PreviewMemoryOperationErrorFailureType)

/-- A half-open range `(start, stop)` contains an address (Rust `Range::contains`). -/
def rangeContains (r : Nat × Nat) (a : Nat) : Bool := decide (r.1 ≤ a ∧ a < r.2)

/-- An entry list (modelling a RangeMap) covers address `a` with value `v`. -/
def recordCovers {R : Type} (entries : List ((Nat × Nat) × R)) (a : Nat) (v : R) : Prop :=
  ∃ e ∈ entries, e.1.1 ≤ a ∧ a < e.1.2 ∧ e.2 = v

instance {R : Type} [DecidableEq R] (entries : List ((Nat × Nat) × R)) (a : Nat) (v : R) :
    Decidable (recordCovers entries a v) := by
  unfold recordCovers; infer_instance

/-- `buffer[s..e]` on a Rust slice, as list extraction. -/
def getSlice (buffer : List Nat) (s e : Nat) : List Nat := (buffer.take e).drop s

/-- Writing the bytes `repl` back over `buffer[s..s+repl.length]`
(the component mutated the `&mut` sub-slice in place). -/
def setSlice (buffer : List Nat) (s : Nat) (repl : List Nat) : List Nat :=
  buffer.take s ++ repl ++ buffer.drop (s + repl.length)

/-- Behavioural handle of a memory-capable component
(the `MemoryComponent` trait).  `σ` is the machine state the components share;
each operation receives `(state, address, buffer, address_space)` and returns
the updated buffer slice contents (reads/previews) or updated state (writes)
together with the error records it inserted.  A `none` result models a
component panic. -/
structure MemoryComponent (σ : Type) where
  read_memory : σ → Nat → List Nat → Nat →
    Option (List Nat × List ((Nat × Nat) × ReadMemoryRecord))
  write_memory : σ → Nat → List Nat → Nat →
    Option (σ × List ((Nat × Nat) × WriteMemoryRecord))
  preview_memory : σ → Nat → List Nat → Nat →
    Option (List Nat × List ((Nat × Nat) × PreviewMemoryRecord))

/-- Entries of the bus population whose range overlaps the half-open range
`s..e` (RangeMap::overlapping, in ascending key order: populations are kept
sorted, and `filter` preserves order). -/
def overlapping (population : List ((Nat × Nat) × Nat)) (s e : Nat) :
    List ((Nat × Nat) × Nat) :=
  population.filter (fun entry => decide (entry.1.1 < e ∧ s < entry.1.2))

/-- Process the error records one component call produced (the
`for (range, error) in errors` loop of MemoryTranslationTable::read):
denials accumulate into `detected`, redirects push a pending access
`(redirect_address, range.start - address .. range.end - address)`.
A redirect whose target the dispatched range contains trips the
`Component attempted to redirect to itself` assertion (`none`);
pushing onto a full (`MAX_ACCESS_SIZE`-entry) stack overflows the
ArrayVec (`none`). -/
def processReadEntries (crange : Nat × Nat) (address : Nat) :
    List ((Nat × Nat) × ReadMemoryRecord) → List (Nat × Nat × Nat) → ReadErrorMap →
    Option (ReadErrorMap × List (Nat × Nat × Nat))
  | [], stack, detected => some (detected, stack)
  | (r, rcd) :: rest, stack, detected =>
    match rcd with
    | .denied =>
      processReadEntries crange address rest stack (detected ++ [(r, .denied)])
    | .redirect ra =>
      if rangeContains crange ra then none
      else if MAX_ACCESS_SIZE ≤ stack.length then none
      else processReadEntries crange address rest ((ra, r.1 - address, r.2 - address) :: stack) detected

/-- One component call of the read dispatch: look the component up in the
store (a missing component or missing memory capability is an `unwrap`
panic), compute `overlap.start`, hand the component the buffer sub-slice,
then process its error records.  Returns the updated buffer and stack, or
the detected error map if the call produced hard errors. -/
def readDispatchComponent {σ : Type} (comps : Nat → Option (MemoryComponent σ)) (s : σ)
    (space address subS subE : Nat) (entry : (Nat × Nat) × Nat)
    (buffer : List Nat) (stack : List (Nat × Nat × Nat)) :
    Option ((List Nat × List (Nat × Nat × Nat)) ⊕ ReadErrorMap) :=
  match comps entry.2 with
  | none => none
  | some component =>
    let overlapS := max (subS + address) entry.1.1
    match component.read_memory s overlapS (getSlice buffer subS subE) space with
    | none => none
    | some (newSlice, entries) =>
      let buffer' := setSlice buffer subS newSlice
      match processReadEntries entry.1 address entries stack [] with
      | none => none
      | some (detected, stack') =>
        if detected.isEmpty then some (.inl (buffer', stack')) else some (.inr detected)

/-- The `for (component_assignment_range, component_id) in population.overlapping(..)`
loop of one popped pending access.  The first component whose call leaves
`detected_errors` non-empty aborts the whole operation with that map. -/
def readDispatchComponents {σ : Type} (comps : Nat → Option (MemoryComponent σ)) (s : σ)
    (space address subS subE : Nat) :
    List ((Nat × Nat) × Nat) → List Nat → List (Nat × Nat × Nat) →
    Option ((List Nat × List (Nat × Nat × Nat)) ⊕ ReadErrorMap)
  | [], buffer, stack => some (.inl (buffer, stack))
  | entry :: rest, buffer, stack =>
    match readDispatchComponent comps s space address subS subE entry buffer stack with
    | none => none
    | some (.inr detected) => some (.inr detected)
    | some (.inl (buffer', stack')) =>
      readDispatchComponents comps s space address subS subE rest buffer' stack'

/-- Result of a read through the translation table.  `fatal` models a Rust
panic (assertion, unwrap, ArrayVec overflow); `spin` models exhausting the
interpreter fuel, so non-termination of the source loop is `spin` at every
fuel. -/
inductive ReadOutcome where
  | ok (buffer : List Nat)
  | err (errors : ReadErrorMap)
  | fatal
  | spin
deriving DecidableEq

/-- The `while let Some((address, buffer_subrange)) = needed_accesses.pop()`
loop of MemoryTranslationTable::read.  The stack is LIFO (ArrayVec pushes and
pops at the back; here the list head is the top). -/
def readDispatchLoop {σ : Type} (population : List ((Nat × Nat) × Nat))
    (comps : Nat → Option (MemoryComponent σ)) (s : σ) (space : Nat) :
    Nat → List (Nat × Nat × Nat) → List Nat → ReadOutcome
  | _, [], buffer => .ok buffer
  | 0, _ :: _, _ => .spin
  | fuel + 1, (address, subS, subE) :: stack, buffer =>
    match readDispatchComponents comps s space address subS subE
        (overlapping population (subS + address) (subE + address)) buffer stack with
    | none => .fatal
    | some (.inr detected) => .err detected
    | some (.inl (buffer', stack')) =>
      readDispatchLoop population comps s space fuel stack' buffer'

/-- Per-address-space routing data (memory.rs `BusInfo`): the bus width in
bits and the population mapping half-open ranges to component ids, kept in
ascending range order (registration of overlapping ranges is a build-time
error). -/
structure BusInfo where
  width : Nat
  population : List ((Nat × Nat) × Nat)

/-- The memory translation table: bus registry plus the component store. -/
structure MemoryTranslationTable (σ : Type) where
  busses : Nat → Option BusInfo
  components : Nat → Option (MemoryComponent σ)

/-- MemoryTranslationTable::read.  The access-size debug assertion and the
`expect` on a missing address space are hard failures; the address is cut
off to the bus width (`view_bits::<Lsb0>()[..width].load_le()`, i.e. modulo
`2 ^ width`; a width of 0 or above 64 would make the bit-slice load panic). -/
def MemoryTranslationTable.read {σ : Type} (mtt : MemoryTranslationTable σ) (s : σ)
    (fuel address : Nat) (buffer : List Nat) (address_space : Nat) : ReadOutcome :=
  if buffer.length ∈ VALID_ACCESS_SIZES then
    match mtt.busses address_space with
    | none => .fatal
    | some bus =>
      if bus.width = 0 ∨ 64 < bus.width then .fatal
      else
        readDispatchLoop bus.population mtt.components s address_space fuel
          [(address % 2 ^ bus.width, 0, buffer.length)] buffer
  else .fatal

/-- Error-record processing for MemoryTranslationTable::write
(same structure as the read variant). -/
def processWriteEntries (crange : Nat × Nat) (address : Nat) :
    List ((Nat × Nat) × WriteMemoryRecord) → List (Nat × Nat × Nat) → WriteErrorMap →
    Option (WriteErrorMap × List (Nat × Nat × Nat))
  | [], stack, detected => some (detected, stack)
  | (r, rcd) :: rest, stack, detected =>
    match rcd with
    | .denied =>
      processWriteEntries crange address rest stack (detected ++ [(r, .denied)])
    | .redirect ra =>
      if rangeContains crange ra then none
      else if MAX_ACCESS_SIZE ≤ stack.length then none
      else processWriteEntries crange address rest ((ra, r.1 - address, r.2 - address) :: stack) detected

/-- One component call of the write dispatch.  The component receives the
(immutable) buffer sub-slice and mutates the machine state `σ`. -/
def writeDispatchComponent {σ : Type} (comps : Nat → Option (MemoryComponent σ)) (s : σ)
    (space address subS subE : Nat) (entry : (Nat × Nat) × Nat)
    (buffer : List Nat) (stack : List (Nat × Nat × Nat)) :
    Option ((σ × List (Nat × Nat × Nat)) ⊕ WriteErrorMap) :=
  match comps entry.2 with
  | none => none
  | some component =>
    let overlapS := max (subS + address) entry.1.1
    match component.write_memory s overlapS (getSlice buffer subS subE) space with
    | none => none
    | some (s', entries) =>
      match processWriteEntries entry.1 address entries stack [] with
      | none => none
      | some (detected, stack') =>
        if detected.isEmpty then some (.inl (s', stack')) else some (.inr detected)

/-- The per-pop component loop of MemoryTranslationTable::write; the machine
state is threaded through the successive component calls. -/
def writeDispatchComponents {σ : Type} (comps : Nat → Option (MemoryComponent σ))
    (space address subS subE : Nat) (buffer : List Nat) :
    List ((Nat × Nat) × Nat) → σ → List (Nat × Nat × Nat) →
    Option ((σ × List (Nat × Nat × Nat)) ⊕ WriteErrorMap)
  | [], s, stack => some (.inl (s, stack))
  | entry :: rest, s, stack =>
    match writeDispatchComponent comps s space address subS subE entry buffer stack with
    | none => none
    | some (.inr detected) => some (.inr detected)
    | some (.inl (s', stack')) =>
      writeDispatchComponents comps space address subS subE buffer rest s' stack'

/-- Result of a write through the translation table; `ok` carries the
machine state after the delivered writes. -/
inductive WriteOutcome (σ : Type) where
  | ok (s : σ)
  | err (errors : WriteErrorMap)
  | fatal
  | spin

/-- The pending-access loop of MemoryTranslationTable::write. -/
def writeDispatchLoop {σ : Type} (population : List ((Nat × Nat) × Nat))
    (comps : Nat → Option (MemoryComponent σ)) (space : Nat) (buffer : List Nat) :
    Nat → List (Nat × Nat × Nat) → σ → WriteOutcome σ
  | _, [], s => .ok s
  | 0, _ :: _, _ => .spin
  | fuel + 1, (address, subS, subE) :: stack, s =>
    match writeDispatchComponents comps space address subS subE buffer
        (overlapping population (subS + address) (subE + address)) s stack with
    | none => .fatal
    | some (.inr detected) => .err detected
    | some (.inl (s', stack')) =>
      writeDispatchLoop population comps space buffer fuel stack' s'

/-- MemoryTranslationTable::write. -/
def MemoryTranslationTable.write {σ : Type} (mtt : MemoryTranslationTable σ) (s : σ)
    (fuel address : Nat) (buffer : List Nat) (address_space : Nat) : WriteOutcome σ :=
  if buffer.length ∈ VALID_ACCESS_SIZES then
    match mtt.busses address_space with
    | none => .fatal
    | some bus =>
      if bus.width = 0 ∨ 64 < bus.width then .fatal
      else
        writeDispatchLoop bus.population mtt.components address_space buffer fuel
          [(address % 2 ^ bus.width, 0, buffer.length)] s
  else .fatal

/-- Error-record processing for MemoryTranslationTable::preview:
like the read variant plus the `Impossible` record. -/
def processPreviewEntries (crange : Nat × Nat) (address : Nat) :
    List ((Nat × Nat) × PreviewMemoryRecord) → List (Nat × Nat × Nat) → PreviewErrorMap →
    Option (PreviewErrorMap × List (Nat × Nat × Nat))
  | [], stack, detected => some (detected, stack)
  | (r, rcd) :: rest, stack, detected =>
    match rcd with
    | .denied =>
      processPreviewEntries crange address rest stack (detected ++ [(r, .denied)])
    | .redirect ra =>
      if rangeContains crange ra then none
      else if MAX_ACCESS_SIZE ≤ stack.length then none
      else processPreviewEntries crange address rest ((ra, r.1 - address, r.2 - address) :: stack) detected
    | .impossible =>
      processPreviewEntries crange address rest stack (detected ++ [(r, .impossible)])

/-- One component call of the preview dispatch. -/
def previewDispatchComponent {σ : Type} (comps : Nat → Option (MemoryComponent σ)) (s : σ)
    (space address subS subE : Nat) (entry : (Nat × Nat) × Nat)
    (buffer : List Nat) (stack : List (Nat × Nat × Nat)) :
    Option ((List Nat × List (Nat × Nat × Nat)) ⊕ PreviewErrorMap) :=
  match comps entry.2 with
  | none => none
  | some component =>
    let overlapS := max (subS + address) entry.1.1
    match component.preview_memory s overlapS (getSlice buffer subS subE) space with
    | none => none
    | some (newSlice, entries) =>
      let buffer' := setSlice buffer subS newSlice
      match processPreviewEntries entry.1 address entries stack [] with
      | none => none
      | some (detected, stack') =>
        if detected.isEmpty then some (.inl (buffer', stack')) else some (.inr detected)

/-- The per-pop component loop of MemoryTranslationTable::preview. -/
def previewDispatchComponents {σ : Type} (comps : Nat → Option (MemoryComponent σ)) (s : σ)
    (space address subS subE : Nat) :
    List ((Nat × Nat) × Nat) → List Nat → List (Nat × Nat × Nat) →
    Option ((List Nat × List (Nat × Nat × Nat)) ⊕ PreviewErrorMap)
  | [], buffer, stack => some (.inl (buffer, stack))
  | entry :: rest, buffer, stack =>
    match previewDispatchComponent comps s space address subS subE entry buffer stack with
    | none => none
    | some (.inr detected) => some (.inr detected)
    | some (.inl (buffer', stack')) =>
      previewDispatchComponents comps s space address subS subE rest buffer' stack'

/-- Result of a preview through the translation table. -/
inductive PreviewOutcome where
  | ok (buffer : List Nat)
  | err (errors : PreviewErrorMap)
  | fatal
  | spin
deriving DecidableEq

/-- The pending-access loop of MemoryTranslationTable::preview. -/
def previewDispatchLoop {σ : Type} (population : List ((Nat × Nat) × Nat))
    (comps : Nat → Option (MemoryComponent σ)) (s : σ) (space : Nat) :
    Nat → List (Nat × Nat × Nat) → List Nat → PreviewOutcome
  | _, [], buffer => .ok buffer
  | 0, _ :: _, _ => .spin
  | fuel + 1, (address, subS, subE) :: stack, buffer =>
    match previewDispatchComponents comps s space address subS subE
        (overlapping population (subS + address) (subE + address)) buffer stack with
    | none => .fatal
    | some (.inr detected) => .err detected
    | some (.inl (buffer', stack')) =>
      previewDispatchLoop population comps s space fuel stack' buffer'

/-- MemoryTranslationTable::preview. -/
def MemoryTranslationTable.preview {σ : Type} (mtt : MemoryTranslationTable σ) (s : σ)
    (fuel address : Nat) (buffer : List Nat) (address_space : Nat) : PreviewOutcome :=
  if buffer.length ∈ VALID_ACCESS_SIZES then
    match mtt.busses address_space with
    | none => .fatal
    | some bus =>
      if bus.width = 0 ∨ 64 < bus.width then .fatal
      else
        previewDispatchLoop bus.population mtt.components s address_space fuel
          [(address % 2 ^ bus.width, 0, buffer.length)] buffer
  else .fatal



/-! ## StandardMemory (definitions/misc/memory/standard.rs) -/

/-- `CHUNK_SIZE` in standard.rs. -/
def CHUNK_SIZE : Nat := 4096

/-- StandardMemoryConfig (the `initial_contents` variants are not needed by
the claims; `assigned_range` is the half-open `rangeStart..rangeEnd`). -/
structure StandardMemoryConfig where
  readable : Bool
  writable : Bool
  max_word_size : Nat
  rangeStart : Nat
  rangeEnd : Nat

/-- Number of 4096-byte chunks allocated by `from_config`:
`buffer_size.div_ceil(CHUNK_SIZE)` (the last chunk may be over-allocated). -/
def StandardMemoryConfig.numChunks (cfg : StandardMemoryConfig) : Nat :=
  (cfg.rangeEnd - cfg.rangeStart + (CHUNK_SIZE - 1)) / CHUNK_SIZE

/-- The chunked backing store, as a function from local byte index to byte:
chunk `c` holds bytes `c*4096 .. c*4096+4096`. -/
structure StandardMemoryState where
  mem : Nat → Nat

/-- Start offset within chunk `idx` of the slice the loop copies
(`chunk_start` in standard.rs). -/
def chunkStart (startChunk idx rs : Nat) : Nat :=
  if idx = startChunk then rs % CHUNK_SIZE else 0

/-- End offset within chunk `idx` of the slice the loop copies
(`chunk_end` in standard.rs). -/
def chunkEnd (endChunk idx re : Nat) : Nat :=
  if idx = endChunk - 1 then
    (if re % CHUNK_SIZE = 0 ∧ re ≠ 0 then CHUNK_SIZE else re % CHUNK_SIZE)
  else CHUNK_SIZE

/-- The chunk loop of StandardMemory::read_memory, iterating
`chunk_index in start_chunk..end_chunk` (fuel `cnt = end_chunk - idx`).
`acc` is the prefix of the output buffer already copied (`buffer_offset`
is its length).  Indexing a chunk beyond the allocated `numChunks`
(`self.buffer[chunk_index]`), or a copy that would overrun the output
buffer slice, is an out-of-bounds panic (`none`).  The loop breaks once
`buffer_offset >= buffer.len()`. -/
def smReadGo (mem : Nat → Nat) (rs re startChunk endChunk numChunks : Nat) :
    Nat → Nat → List Nat → Nat → Option (List Nat)
  | _, 0, acc, _ => some acc
  | idx, cnt + 1, acc, bufLen =>
    if idx < numChunks then
      let cs := chunkStart startChunk idx rs
      let ce := chunkEnd endChunk idx re
      if bufLen < acc.length + (ce - cs) then none
      else
        let acc' := acc ++ (List.range (ce - cs)).map (fun j => mem (idx * CHUNK_SIZE + cs + j))
        if bufLen ≤ acc'.length then some acc'
        else smReadGo mem rs re startChunk endChunk numChunks (idx + 1) cnt acc' bufLen
    else none

/-- The chunk loop of StandardMemory::write_internal, overwriting the slice
`chunk_start..chunk_end` of each chunk with the next part of the input
buffer (`off` is `buffer_offset`). -/
def smWriteGo (buffer : List Nat) (rs re startChunk endChunk numChunks : Nat) :
    Nat → Nat → Nat → (Nat → Nat) → Option (Nat → Nat)
  | _, 0, _, mem => some mem
  | idx, cnt + 1, off, mem =>
    if idx < numChunks then
      let cs := chunkStart startChunk idx rs
      let ce := chunkEnd endChunk idx re
      if buffer.length < off + (ce - cs) then none
      else
        let mem' := fun i =>
          if idx * CHUNK_SIZE + cs ≤ i ∧ i < idx * CHUNK_SIZE + ce then
            buffer.getD (off + (i - (idx * CHUNK_SIZE + cs))) 0
          else mem i
        let off' := off + (ce - cs)
        if buffer.length ≤ off' then some mem'
        else smWriteGo buffer rs re startChunk endChunk numChunks (idx + 1) cnt off' mem'
    else none

/-- The denial records StandardMemory::read_memory inserts: the whole access
when the buffer is not readable, plus the non-empty out-of-range sub-ranges
`assigned_range.end .. address+len` and `address .. assigned_range.start`
(RangeMap insertion order; theorems read the map pointwise). -/
def smReadErrors (cfg : StandardMemoryConfig) (address len : Nat) :
    List ((Nat × Nat) × ReadMemoryRecord) :=
  (if cfg.readable then [] else [((address, address + len), ReadMemoryRecord.denied)]) ++
    (([(cfg.rangeEnd, address + len), (address, cfg.rangeStart)].filter
        (fun r => decide (r.1 < r.2))).map (fun r => (r, ReadMemoryRecord.denied)))

/-- StandardMemory::read_memory.  The access-size debug assertion is a hard
failure; when any denial was recorded the function returns early with the
buffer untouched, otherwise the chunk loop fills the buffer. -/
def StandardMemory.read_memory (cfg : StandardMemoryConfig) (st : StandardMemoryState)
    (address : Nat) (buffer : List Nat) :
    Option (List Nat × List ((Nat × Nat) × ReadMemoryRecord)) :=
  if buffer.length ∈ VALID_ACCESS_SIZES then
    let errs := smReadErrors cfg address buffer.length
    if errs.isEmpty then
      let rs := address - cfg.rangeStart
      let re := address - cfg.rangeStart + buffer.length
      let startChunk := rs / CHUNK_SIZE
      let endChunk := (re + (CHUNK_SIZE - 1)) / CHUNK_SIZE
      match smReadGo st.mem rs re startChunk endChunk cfg.numChunks
          startChunk (endChunk - startChunk) [] buffer.length with
      | none => none
      | some acc => some (acc ++ buffer.drop acc.length, [])
    else some (buffer, errs)
  else none

/-- StandardMemory::write_internal (unchecked chunked write). -/
def StandardMemory.write_internal (cfg : StandardMemoryConfig) (st : StandardMemoryState)
    (address : Nat) (buffer : List Nat) : Option StandardMemoryState :=
  let rs := address - cfg.rangeStart
  let re := address - cfg.rangeStart + buffer.length
  let startChunk := rs / CHUNK_SIZE
  let endChunk := (re + (CHUNK_SIZE - 1)) / CHUNK_SIZE
  match smWriteGo buffer rs re startChunk endChunk cfg.numChunks
      startChunk (endChunk - startChunk) 0 st.mem with
  | none => none
  | some mem' => some ⟨mem'⟩

/-- The denial records StandardMemory::write_memory inserts (same shape as
the read ones, with the non-writable check in place of the readable one). -/
def smWriteErrors (cfg : StandardMemoryConfig) (address len : Nat) :
    List ((Nat × Nat) × WriteMemoryRecord) :=
  (if cfg.writable then [] else [((address, address + len), WriteMemoryRecord.denied)]) ++
    (([(cfg.rangeEnd, address + len), (address, cfg.rangeStart)].filter
        (fun r => decide (r.1 < r.2))).map (fun r => (r, WriteMemoryRecord.denied)))

/-- StandardMemory::write_memory: record denials; if any, return without
touching the store, otherwise run write_internal. -/
def StandardMemory.write_memory (cfg : StandardMemoryConfig) (st : StandardMemoryState)
    (address : Nat) (buffer : List Nat) :
    Option (StandardMemoryState × List ((Nat × Nat) × WriteMemoryRecord)) :=
  if buffer.length ∈ VALID_ACCESS_SIZES then
    let errs := smWriteErrors cfg address buffer.length
    if errs.isEmpty then
      match StandardMemory.write_internal cfg st address buffer with
      | none => none
      | some st' => some (st', [])
    else some (st, errs)
  else none

/-- StandardMemory::save_snapshot: concatenate every chunk in order, each
contributing its full 4096 bytes (`chunk_guard.as_slice()`), so the blob
has length `numChunks * CHUNK_SIZE`. -/
def StandardMemory.save_snapshot (cfg : StandardMemoryConfig)
    (st : StandardMemoryState) : List Nat :=
  (List.range (cfg.numChunks * CHUNK_SIZE)).map st.mem

/-- StandardMemory::load_snapshot: `assert_eq!(state.memory.len(),
self.config.assigned_range.len())` (a failing assert is a panic, `none`),
then split the blob back across the chunks: byte `i` of the blob lands at
local index `i`, bytes past the blob keep their old value. -/
def StandardMemory.load_snapshot (cfg : StandardMemoryConfig) (st : StandardMemoryState)
    (memory : List Nat) : Option StandardMemoryState :=
  if memory.length = cfg.rangeEnd - cfg.rangeStart then
    some ⟨fun i => if i < memory.length then memory.getD i 0 else st.mem i⟩
  else none

/-! ## RomMemory (definitions/misc/memory/rom.rs) -/

structure RomMemoryConfig where
  max_word_size : Nat
  rangeStart : Nat
  rangeEnd : Nat

/-- The read-only mapped file: its bytes and length.  There is no mutable
state beyond the file cursor, which every operation re-seeks. -/
structure RomMemoryState where
  rom : Nat → Nat
  romLen : Nat

/-- RomMemory::read_memory: a request longer than `max_word_size` denies the
whole range; the file is then seeked to `address - range.start` and
`read_exact` fills the buffer regardless (reading past the end of the file
is an unwrap panic). -/
def RomMemory.read_memory (cfg : RomMemoryConfig) (st : RomMemoryState)
    (address : Nat) (buffer : List Nat) :
    Option (List Nat × List ((Nat × Nat) × ReadMemoryRecord)) :=
  if buffer.length ∈ VALID_ACCESS_SIZES then
    let errs : List ((Nat × Nat) × ReadMemoryRecord) :=
      if cfg.max_word_size < buffer.length then
        [((address, address + buffer.length), ReadMemoryRecord.denied)]
      else []
    let localAddr := address - cfg.rangeStart
    if st.romLen < localAddr + buffer.length then none
    else some ((List.range buffer.length).map (fun j => st.rom (localAddr + j)), errs)
  else none

/-- RomMemory::write_memory: always denies the entire accessed range and
touches no state (the function has nothing to mutate). -/
def RomMemory.write_memory (_cfg : RomMemoryConfig) (address : Nat) (buffer : List Nat) :
    Option (List ((Nat × Nat) × WriteMemoryRecord)) :=
  if buffer.length ∈ VALID_ACCESS_SIZES then
    some [((address, address + buffer.length), WriteMemoryRecord.denied)]
  else none

/-- RomMemory::preview_memory: like read but with no size check and no
error records at all. -/
def RomMemory.preview_memory (cfg : RomMemoryConfig) (st : RomMemoryState)
    (address : Nat) (buffer : List Nat) :
    Option (List Nat × List ((Nat × Nat) × PreviewMemoryRecord)) :=
  let localAddr := address - cfg.rangeStart
  if st.romLen < localAddr + buffer.length then none
  else some ((List.range buffer.length).map (fun j => st.rom (localAddr + j)), [])

/-! ## Chip8Display (definitions/chip8/display/mod.rs) -/

inductive Chip8Kind where
  | chip8
  | chip48
  | superChip8
deriving DecidableEq

/-- The 64x32 one-bit framebuffer as a predicate on (x, y): `true` is the
fully-white pixel `Srgba::new(255,255,255,255)`, `false` the black one. -/
def Framebuffer := Nat → Nat → Bool

/-- Bit `x` (0-based, MSB first) of a sprite byte:
`sprite.view_bits::<Msb0>()` chunked into rows of 8. -/
def spriteBit (byte x : Nat) : Bool := byte.testBit (7 - x)

/-- The body of the inner `for (x, sprite_pixel) in sprite_row.iter().enumerate()`
loop of draw_sprite_common: clip at `x >= 64 || y >= 32`, detect a collision
when an on sprite-bit meets an on pixel, and XOR the bit into the pixel. -/
def drawPixelStep (px py y byte : Nat) (acc : Framebuffer × Bool) (x : Nat) :
    Framebuffer × Bool :=
  let cx := px + x
  let cy := py + y
  if 64 ≤ cx ∨ 32 ≤ cy then acc
  else
    let old := acc.1 cx cy
    let bit := spriteBit byte x
    (fun a b => if a = cx ∧ b = cy then xor bit old else acc.1 a b,
     acc.2 || (bit && old))

/-- One sprite row: fold the pixel step over the 8 bits of the row byte. -/
def drawRowFold (px py y byte : Nat) (acc : Framebuffer × Bool) : Framebuffer × Bool :=
  (List.range 8).foldl (drawPixelStep px py y byte) acc

/-- The outer `for (y, sprite_row) in ...enumerate()` loop of
draw_sprite_common, one row byte per y. -/
def drawRowsGo (px py : Nat) : List Nat → Nat → Framebuffer × Bool → Framebuffer × Bool
  | [], _, acc => acc
  | byte :: rest, y, acc => drawRowsGo px py rest (y + 1) (drawRowFold px py y byte acc)

/-- draw_sprite_common: blit an 8-wide, `sprite.length`-tall sprite at
`(px, py)` into the framebuffer, returning the new framebuffer and the
collision flag. -/
def draw_sprite_common (px py : Nat) (sprite : List Nat) (fb : Framebuffer) :
    Framebuffer × Bool :=
  drawRowsGo px py sprite 0 (fb, false)

/-- Chip8Display::draw_sprite.  For the Chip8 / Chip48 kinds the entry
position is wrapped as `(x % 63, y % 31)`; SuperChip8 is `todo!()`, a hard
failure.  Modelled from the spec: the software backend forwards the call,
under its framebuffer mutex, to the common blit on its 64x32 matrix (the
backend file itself is not under src/; the wrap and the blit loop are from
mod.rs). -/
def Chip8Display.draw_sprite (kind : Chip8Kind) (position : Nat × Nat)
    (sprite : List Nat) (fb : Framebuffer) : Option (Framebuffer × Bool) :=
  match kind with
  | .chip8 => some (draw_sprite_common (position.1 % 63) (position.2 % 31) sprite fb)
  | .chip48 => some (draw_sprite_common (position.1 % 63) (position.2 % 31) sprite fb)
  | .superChip8 => none

/-! ## Concrete fixtures used by witnesses and counterexamples -/

/-- A component that serves every request without errors and without
touching anything (used only to instantiate hypotheses at a concrete
machine). -/
def trivialComponent : MemoryComponent Unit where
  read_memory := fun _ _ buffer _ => some (buffer, [])
  write_memory := fun s _ _ _ => some (s, [])
  preview_memory := fun _ _ buffer _ => some (buffer, [])

/-- A one-bus table with an 8-bit-wide empty bus. -/
def mttW8 : MemoryTranslationTable Unit where
  busses := fun space => if space = 0 then some ⟨8, []⟩ else none
  components := fun _ => none

/-! ## C5: bus-width masking -/

/-- C5: for every bus of width w (1..=64) and every address, the
MemoryTranslationTable truncates the address to the bus width before
routing: read/write/preview at `addr` are observably equal to the same
operation at `addr % 2 ^ w`. -/
theorem c5_bus_width_masking {σ : Type} (mtt : MemoryTranslationTable σ) (s : σ)
    (fuel address : Nat) (rbuf wbuf pbuf : List Nat) (space : Nat) (bus : BusInfo)
    (hbus : mtt.busses space = some bus) (hw1 : 1 ≤ bus.width) (hw2 : bus.width ≤ 64) :
    mtt.read s fuel address rbuf space = mtt.read s fuel (address % 2 ^ bus.width) rbuf space ∧
    mtt.write s fuel address wbuf space = mtt.write s fuel (address % 2 ^ bus.width) wbuf space ∧
    mtt.preview s fuel address pbuf space
      = mtt.preview s fuel (address % 2 ^ bus.width) pbuf space := by
  refine ⟨?_, ?_, ?_⟩ <;>
    simp only [MemoryTranslationTable.read, MemoryTranslationTable.write,
      MemoryTranslationTable.preview, hbus] <;>
    rw [Nat.mod_mod_of_dvd _ dvd_rfl]

/-- Witness for C5 at a concrete 8-bit bus and address 777. -/
theorem c5_bus_width_masking_witness :
    mttW8.read () 5 777 [0] 0 = mttW8.read () 5 (777 % 2 ^ (8:Nat)) [0] 0 ∧
    mttW8.write () 5 777 [0] 0 = mttW8.write () 5 (777 % 2 ^ (8:Nat)) [0] 0 ∧
    mttW8.preview () 5 777 [0] 0 = mttW8.preview () 5 (777 % 2 ^ (8:Nat)) [0] 0 :=
  c5_bus_width_masking mttW8 () 5 777 [0] [0] [0] 0 ⟨8, []⟩ rfl (by decide) (by decide)

/-! ## C3: StandardMemory snapshot round-trip -/

/-- The configuration of the repo's own `initialization` test:
a readable, writable standard memory assigned `0..4`. -/
def snapshotCfg4 : StandardMemoryConfig := ⟨true, true, 8, 0, 4⟩

/-- An arbitrary concrete store. -/
def snapshotState0 : StandardMemoryState := ⟨fun _ => 0⟩

/-- C3 fails on the code: for the (reachable) assigned range `0..4`,
save_snapshot emits the full over-allocated chunk — 4096 bytes — while
load_snapshot asserts the blob length equals |assigned_range| = 4 and
panics, so `load_snapshot(save_snapshot(s))` does not complete. -/
theorem c3_snapshot_roundtrip_fails :
    (StandardMemory.save_snapshot snapshotCfg4 snapshotState0).length = 4096 ∧
    snapshotCfg4.rangeEnd - snapshotCfg4.rangeStart = 4 ∧
    StandardMemory.load_snapshot snapshotCfg4 snapshotState0
      (StandardMemory.save_snapshot snapshotCfg4 snapshotState0) = none := by
  refine ⟨?_, by decide, ?_⟩
  · simp [StandardMemory.save_snapshot, StandardMemoryConfig.numChunks, snapshotCfg4, CHUNK_SIZE]
  · simp [StandardMemory.load_snapshot, StandardMemory.save_snapshot,
      StandardMemoryConfig.numChunks, snapshotCfg4, CHUNK_SIZE]

/-! ## C6: denial preservation on non-writable components -/

/-- C6: a write to a non-writable StandardMemory returns with the store
untouched (the very same state, so every subsequent read is unchanged) and
an error map that covers the entire accessed range with Denied; and
RomMemory::write_memory always denies the entire accessed range (it has no
mutable store at all). -/
theorem c6_denial_preservation (cfg : StandardMemoryConfig) (st : StandardMemoryState)
    (address : Nat) (data : List Nat) (rcfg : RomMemoryConfig) (raddr : Nat)
    (rdata : List Nat) (hw : cfg.writable = false)
    (hlen : data.length ∈ VALID_ACCESS_SIZES) (hrlen : rdata.length ∈ VALID_ACCESS_SIZES) :
    (StandardMemory.write_memory cfg st address data
        = some (st, smWriteErrors cfg address data.length) ∧
      ∀ a, address ≤ a → a < address + data.length →
        recordCovers (smWriteErrors cfg address data.length) a WriteMemoryRecord.denied) ∧
    RomMemory.write_memory rcfg raddr rdata
      = some [((raddr, raddr + rdata.length), WriteMemoryRecord.denied)] := by
  refine ⟨⟨?_, ?_⟩, ?_⟩
  · simp [StandardMemory.write_memory, hlen, smWriteErrors, hw]
  · intro a ha1 ha2
    exact ⟨((address, address + data.length), .denied),
      by simp [smWriteErrors, hw], ha1, ha2, rfl⟩
  · simp [RomMemory.write_memory, hrlen]

/-- Witness for C6: a concrete non-writable standard memory and a ROM. -/
theorem c6_denial_preservation_witness :
    (StandardMemory.write_memory ⟨true, false, 8, 0, 16⟩ snapshotState0 3 [1, 2]
        = some (snapshotState0, smWriteErrors ⟨true, false, 8, 0, 16⟩ 3 2) ∧
      ∀ a, 3 ≤ a → a < 3 + 2 →
        recordCovers (smWriteErrors ⟨true, false, 8, 0, 16⟩ 3 2) a WriteMemoryRecord.denied) ∧
    RomMemory.write_memory ⟨8, 0, 16⟩ 5 [7] = some [((5, 5 + 1), WriteMemoryRecord.denied)] := by
  have h := c6_denial_preservation ⟨true, false, 8, 0, 16⟩ snapshotState0 3 [1, 2]
    ⟨8, 0, 16⟩ 5 [7] rfl (by decide) (by decide)
  simpa using h

/-! ## C2: redirect termination -/

/-- A component that redirects every access, in all three operations, to a
fixed target address (the claims quantify over every configuration of
redirecting components; this is one such MemoryComponent implementor). -/
def redirectAllComponent (target : Nat) : MemoryComponent Unit where
  read_memory := fun _ address buffer _ =>
    some (buffer, [((address, address + buffer.length), .redirect target)])
  write_memory := fun s address buffer _ =>
    some (s, [((address, address + buffer.length), .redirect target)])
  preview_memory := fun _ address buffer _ =>
    some (buffer, [((address, address + buffer.length), .redirect target)])

/-- Two components in mutual redirection: component 0 owns `0..1` and
redirects to address 1; component 1 owns `1..2` and redirects to address 0. -/
def pingPop : List ((Nat × Nat) × Nat) := [((0, 1), 0), ((1, 2), 1)]

def pingComps : Nat → Option (MemoryComponent Unit) := fun cid =>
  if cid = 0 then some (redirectAllComponent 1)
  else if cid = 1 then some (redirectAllComponent 0)
  else none

def pingMtt : MemoryTranslationTable Unit :=
  ⟨fun space => if space = 0 then some ⟨8, pingPop⟩ else none, pingComps⟩

theorem ping_read_step0 (fuel : Nat) :
    readDispatchLoop pingPop pingComps () 0 (fuel + 1) [(0, 0, 1)] [0]
      = readDispatchLoop pingPop pingComps () 0 fuel [(1, 0, 1)] [0] := rfl

theorem ping_read_step1 (fuel : Nat) :
    readDispatchLoop pingPop pingComps () 0 (fuel + 1) [(1, 0, 1)] [0]
      = readDispatchLoop pingPop pingComps () 0 fuel [(0, 0, 1)] [0] := rfl

theorem ping_read_spin (fuel : Nat) :
    readDispatchLoop pingPop pingComps () 0 fuel [(0, 0, 1)] [0] = ReadOutcome.spin ∧
    readDispatchLoop pingPop pingComps () 0 fuel [(1, 0, 1)] [0] = ReadOutcome.spin := by
  induction fuel with
  | zero => exact ⟨rfl, rfl⟩
  | succ n ih => exact ⟨(ping_read_step0 n).trans ih.2, (ping_read_step1 n).trans ih.1⟩

theorem ping_write_step0 (fuel : Nat) :
    writeDispatchLoop pingPop pingComps 0 [0] (fuel + 1) [(0, 0, 1)] ()
      = writeDispatchLoop pingPop pingComps 0 [0] fuel [(1, 0, 1)] () := rfl

theorem ping_write_step1 (fuel : Nat) :
    writeDispatchLoop pingPop pingComps 0 [0] (fuel + 1) [(1, 0, 1)] ()
      = writeDispatchLoop pingPop pingComps 0 [0] fuel [(0, 0, 1)] () := rfl

theorem ping_write_spin (fuel : Nat) :
    writeDispatchLoop pingPop pingComps 0 [0] fuel [(0, 0, 1)] () = WriteOutcome.spin ∧
    writeDispatchLoop pingPop pingComps 0 [0] fuel [(1, 0, 1)] () = WriteOutcome.spin := by
  induction fuel with
  | zero => exact ⟨rfl, rfl⟩
  | succ n ih => exact ⟨(ping_write_step0 n).trans ih.2, (ping_write_step1 n).trans ih.1⟩

theorem ping_preview_step0 (fuel : Nat) :
    previewDispatchLoop pingPop pingComps () 0 (fuel + 1) [(0, 0, 1)] [0]
      = previewDispatchLoop pingPop pingComps () 0 fuel [(1, 0, 1)] [0] := rfl

theorem ping_preview_step1 (fuel : Nat) :
    previewDispatchLoop pingPop pingComps () 0 (fuel + 1) [(1, 0, 1)] [0]
      = previewDispatchLoop pingPop pingComps () 0 fuel [(0, 0, 1)] [0] := rfl

theorem ping_preview_spin (fuel : Nat) :
    previewDispatchLoop pingPop pingComps () 0 fuel [(0, 0, 1)] [0] = PreviewOutcome.spin ∧
    previewDispatchLoop pingPop pingComps () 0 fuel [(1, 0, 1)] [0] = PreviewOutcome.spin := by
  induction fuel with
  | zero => exact ⟨rfl, rfl⟩
  | succ n ih => exact ⟨(ping_preview_step0 n).trans ih.2, (ping_preview_step1 n).trans ih.1⟩

/-- C2 counterexample: a two-component redirect cycle (0..1 redirects to 1,
1..2 redirects to 0).  The claim predicts an error return once more than 8
redirection hops are needed; instead, after 100 loop iterations the
dispatch of `read(0, [u8;1])` is still running — the pending stack stays at
one entry, so the `MAX_ACCESS_SIZE` capacity never intervenes and no error
is ever produced (ping_read_spin shows this at every fuel). -/
theorem c2_redirect_termination_counterexample :
    pingMtt.read () 100 0 [0] 0 = ReadOutcome.spin :=
  (ping_read_spin 100).1

/-- C2 amended: dispatch does not bound redirect hops.  On a redirect cycle
between two distinct components, read, write and preview all loop forever
(for every interpreter fuel the loop reports fuel exhaustion, never an
error, never a normal return): the 8-entry `MAX_ACCESS_SIZE` stack bound
limits only the number of simultaneously pending sub-accesses, and a push
beyond it is a hard failure (ArrayVec panic), not an error return. -/
theorem c2_redirect_cycle_diverges (fuel : Nat) :
    pingMtt.read () fuel 0 [0] 0 = ReadOutcome.spin ∧
    pingMtt.write () fuel 0 [0] 0 = WriteOutcome.spin ∧
    pingMtt.preview () fuel 0 [0] 0 = PreviewOutcome.spin :=
  ⟨(ping_read_spin fuel).1, (ping_write_spin fuel).1, (ping_preview_spin fuel).1⟩

/-! ## C7: the redirect-to-self check -/

/-- One component (id 0) owning the two ranges `0..4` and `8..12`: accesses
dispatched below address 8 redirect to address 8 (a range the same
component owns); accesses at address 8 and above are served with byte 7. -/
def dualRangeComponent : MemoryComponent Unit where
  read_memory := fun _ address buffer _ =>
    if address < 8 then some (buffer, [((address, address + buffer.length), .redirect 8)])
    else some (buffer.map (fun _ => 7), [])
  write_memory := fun s address buffer _ =>
    if address < 8 then some (s, [((address, address + buffer.length), .redirect 8)])
    else some (s, [])
  preview_memory := fun _ address buffer _ =>
    if address < 8 then some (buffer, [((address, address + buffer.length), .redirect 8)])
    else some (buffer.map (fun _ => 7), [])

def dualMtt : MemoryTranslationTable Unit :=
  ⟨fun space => if space = 0 then some ⟨8, [((0, 4), 0), ((8, 12), 0)]⟩ else none,
   fun cid => if cid = 0 then some dualRangeComponent else none⟩

/-- A single component owning only `0..4` whose accesses redirect to `t`. -/
def selfMtt (t : Nat) : MemoryTranslationTable Unit :=
  ⟨fun space => if space = 0 then some ⟨8, [((0, 4), 0)]⟩ else none,
   fun cid => if cid = 0 then some (redirectAllComponent t) else none⟩

/-- C7 counterexample: component 0 owns both `0..4` and `8..12`; dispatched
at `0..4` it redirects to address 8, inside its other owned range.  The
claim predicts a hard failure with the redirect never followed; instead the
assertion (which checks only the currently dispatched range `0..4`) passes,
the redirect is followed, and all three operations complete normally — the
read and preview even return data served by the same component at its other
range. -/
theorem c7_self_redirect_counterexample :
    dualMtt.read () 3 0 [9] 0 = ReadOutcome.ok [7] ∧
    dualMtt.write () 3 0 [9] 0 = WriteOutcome.ok () ∧
    dualMtt.preview () 3 0 [9] 0 = PreviewOutcome.ok [7] :=
  ⟨rfl, rfl, rfl⟩

/-- A read component call whose records include a redirect into the
dispatched range `crange` makes record processing a hard failure (the
`Component attempted to redirect to itself` assertion), for every record
list, pending stack and accumulator. -/
theorem processReadEntries_self_redirect (crange : Nat × Nat) (address : Nat) :
    ∀ (entries : List ((Nat × Nat) × ReadMemoryRecord))
      (stack : List (Nat × Nat × Nat)) (acc : ReadErrorMap),
      (∃ e ∈ entries, ∃ ra, e.2 = ReadMemoryRecord.redirect ra ∧
        crange.1 ≤ ra ∧ ra < crange.2) →
      processReadEntries crange address entries stack acc = none := by
  intro entries
  induction entries with
  | nil =>
    intro stack acc hex
    obtain ⟨e, he, -⟩ := hex
    simp at he
  | cons e rest ih =>
    intro stack acc hex
    obtain ⟨r0, rcd0⟩ := e
    cases rcd0 with
    | denied =>
      simp only [processReadEntries]
      apply ih
      obtain ⟨f, hf, ra, hrd, hc1, hc2⟩ := hex
      rcases List.mem_cons.mp hf with rfl | hmem
      · exact absurd hrd (by simp)
      · exact ⟨f, hmem, ra, hrd, hc1, hc2⟩
    | redirect ra0 =>
      simp only [processReadEntries]
      by_cases hself : rangeContains crange ra0 = true
      · rw [if_pos hself]
      · rw [if_neg hself]
        by_cases hfull : MAX_ACCESS_SIZE ≤ stack.length
        · rw [if_pos hfull]
        · rw [if_neg hfull]
          apply ih
          obtain ⟨f, hf, ra, hrd, hc1, hc2⟩ := hex
          rcases List.mem_cons.mp hf with rfl | hmem
          · have hra : ra0 = ra := by simpa using hrd
            have hcontains : rangeContains crange ra0 = true := by
              simp only [rangeContains, decide_eq_true_eq, hra]
              exact ⟨hc1, hc2⟩
            exact absurd hcontains hself
          · exact ⟨f, hmem, ra, hrd, hc1, hc2⟩

/-- Write analogue of processReadEntries_self_redirect. -/
theorem processWriteEntries_self_redirect (crange : Nat × Nat) (address : Nat) :
    ∀ (entries : List ((Nat × Nat) × WriteMemoryRecord))
      (stack : List (Nat × Nat × Nat)) (acc : WriteErrorMap),
      (∃ e ∈ entries, ∃ ra, e.2 = WriteMemoryRecord.redirect ra ∧
        crange.1 ≤ ra ∧ ra < crange.2) →
      processWriteEntries crange address entries stack acc = none := by
  intro entries
  induction entries with
  | nil =>
    intro stack acc hex
    obtain ⟨e, he, -⟩ := hex
    simp at he
  | cons e rest ih =>
    intro stack acc hex
    obtain ⟨r0, rcd0⟩ := e
    cases rcd0 with
    | denied =>
      simp only [processWriteEntries]
      apply ih
      obtain ⟨f, hf, ra, hrd, hc1, hc2⟩ := hex
      rcases List.mem_cons.mp hf with rfl | hmem
      · exact absurd hrd (by simp)
      · exact ⟨f, hmem, ra, hrd, hc1, hc2⟩
    | redirect ra0 =>
      simp only [processWriteEntries]
      by_cases hself : rangeContains crange ra0 = true
      · rw [if_pos hself]
      · rw [if_neg hself]
        by_cases hfull : MAX_ACCESS_SIZE ≤ stack.length
        · rw [if_pos hfull]
        · rw [if_neg hfull]
          apply ih
          obtain ⟨f, hf, ra, hrd, hc1, hc2⟩ := hex
          rcases List.mem_cons.mp hf with rfl | hmem
          · have hra : ra0 = ra := by simpa using hrd
            have hcontains : rangeContains crange ra0 = true := by
              simp only [rangeContains, decide_eq_true_eq, hra]
              exact ⟨hc1, hc2⟩
            exact absurd hcontains hself
          · exact ⟨f, hmem, ra, hrd, hc1, hc2⟩

/-- Preview analogue of processReadEntries_self_redirect. -/
theorem processPreviewEntries_self_redirect (crange : Nat × Nat) (address : Nat) :
    ∀ (entries : List ((Nat × Nat) × PreviewMemoryRecord))
      (stack : List (Nat × Nat × Nat)) (acc : PreviewErrorMap),
      (∃ e ∈ entries, ∃ ra, e.2 = PreviewMemoryRecord.redirect ra ∧
        crange.1 ≤ ra ∧ ra < crange.2) →
      processPreviewEntries crange address entries stack acc = none := by
  intro entries
  induction entries with
  | nil =>
    intro stack acc hex
    obtain ⟨e, he, -⟩ := hex
    simp at he
  | cons e rest ih =>
    intro stack acc hex
    obtain ⟨r0, rcd0⟩ := e
    cases rcd0 with
    | denied =>
      simp only [processPreviewEntries]
      apply ih
      obtain ⟨f, hf, ra, hrd, hc1, hc2⟩ := hex
      rcases List.mem_cons.mp hf with rfl | hmem
      · exact absurd hrd (by simp)
      · exact ⟨f, hmem, ra, hrd, hc1, hc2⟩
    | impossible =>
      simp only [processPreviewEntries]
      apply ih
      obtain ⟨f, hf, ra, hrd, hc1, hc2⟩ := hex
      rcases List.mem_cons.mp hf with rfl | hmem
      · exact absurd hrd (by simp)
      · exact ⟨f, hmem, ra, hrd, hc1, hc2⟩
    | redirect ra0 =>
      simp only [processPreviewEntries]
      by_cases hself : rangeContains crange ra0 = true
      · rw [if_pos hself]
      · rw [if_neg hself]
        by_cases hfull : MAX_ACCESS_SIZE ≤ stack.length
        · rw [if_pos hfull]
        · rw [if_neg hfull]
          apply ih
          obtain ⟨f, hf, ra, hrd, hc1, hc2⟩ := hex
          rcases List.mem_cons.mp hf with rfl | hmem
          · have hra : ra0 = ra := by simpa using hrd
            have hcontains : rangeContains crange ra0 = true := by
              simp only [rangeContains, decide_eq_true_eq, hra]
              exact ⟨hc1, hc2⟩
            exact absurd hcontains hself
          · exact ⟨f, hmem, ra, hrd, hc1, hc2⟩

/-- Read record processing never pushes a pending access whose target lies
inside the dispatched range: every entry of the outgoing stack is an entry
of the incoming stack or targets an address outside `crange`, so a redirect
into the dispatched range is never followed. -/
theorem processReadEntries_pushes (crange : Nat × Nat) (address : Nat) :
    ∀ (entries : List ((Nat × Nat) × ReadMemoryRecord))
      (stack : List (Nat × Nat × Nat)) (acc detected : ReadErrorMap)
      (stack' : List (Nat × Nat × Nat)),
      processReadEntries crange address entries stack acc = some (detected, stack') →
      ∀ e ∈ stack', e ∈ stack ∨ ¬(crange.1 ≤ e.1 ∧ e.1 < crange.2) := by
  intro entries
  induction entries with
  | nil =>
    intro stack acc detected stack' h e he
    simp only [processReadEntries, Option.some.injEq, Prod.mk.injEq] at h
    refine Or.inl ?_
    rw [h.2]
    exact he
  | cons f rest ih =>
    intro stack acc detected stack' h e he
    obtain ⟨r0, rcd0⟩ := f
    cases rcd0 with
    | denied =>
      simp only [processReadEntries] at h
      exact ih _ _ _ _ h e he
    | redirect ra0 =>
      simp only [processReadEntries] at h
      split at h
      · exact absurd h (by simp)
      · split at h
        · exact absurd h (by simp)
        · rename_i hself hfull
          rcases ih _ _ _ _ h e he with hmem | hout
          · rcases List.mem_cons.mp hmem with rfl | hmem2
            · refine Or.inr ?_
              intro hcon
              apply hself
              simp only [rangeContains, decide_eq_true_eq]
              simpa using hcon
            · exact Or.inl hmem2
          · exact Or.inr hout

/-- Write analogue of processReadEntries_pushes. -/
theorem processWriteEntries_pushes (crange : Nat × Nat) (address : Nat) :
    ∀ (entries : List ((Nat × Nat) × WriteMemoryRecord))
      (stack : List (Nat × Nat × Nat)) (acc detected : WriteErrorMap)
      (stack' : List (Nat × Nat × Nat)),
      processWriteEntries crange address entries stack acc = some (detected, stack') →
      ∀ e ∈ stack', e ∈ stack ∨ ¬(crange.1 ≤ e.1 ∧ e.1 < crange.2) := by
  intro entries
  induction entries with
  | nil =>
    intro stack acc detected stack' h e he
    simp only [processWriteEntries, Option.some.injEq, Prod.mk.injEq] at h
    refine Or.inl ?_
    rw [h.2]
    exact he
  | cons f rest ih =>
    intro stack acc detected stack' h e he
    obtain ⟨r0, rcd0⟩ := f
    cases rcd0 with
    | denied =>
      simp only [processWriteEntries] at h
      exact ih _ _ _ _ h e he
    | redirect ra0 =>
      simp only [processWriteEntries] at h
      split at h
      · exact absurd h (by simp)
      · split at h
        · exact absurd h (by simp)
        · rename_i hself hfull
          rcases ih _ _ _ _ h e he with hmem | hout
          · rcases List.mem_cons.mp hmem with rfl | hmem2
            · refine Or.inr ?_
              intro hcon
              apply hself
              simp only [rangeContains, decide_eq_true_eq]
              simpa using hcon
            · exact Or.inl hmem2
          · exact Or.inr hout

/-- Preview analogue of processReadEntries_pushes. -/
theorem processPreviewEntries_pushes (crange : Nat × Nat) (address : Nat) :
    ∀ (entries : List ((Nat × Nat) × PreviewMemoryRecord))
      (stack : List (Nat × Nat × Nat)) (acc detected : PreviewErrorMap)
      (stack' : List (Nat × Nat × Nat)),
      processPreviewEntries crange address entries stack acc = some (detected, stack') →
      ∀ e ∈ stack', e ∈ stack ∨ ¬(crange.1 ≤ e.1 ∧ e.1 < crange.2) := by
  intro entries
  induction entries with
  | nil =>
    intro stack acc detected stack' h e he
    simp only [processPreviewEntries, Option.some.injEq, Prod.mk.injEq] at h
    refine Or.inl ?_
    rw [h.2]
    exact he
  | cons f rest ih =>
    intro stack acc detected stack' h e he
    obtain ⟨r0, rcd0⟩ := f
    cases rcd0 with
    | denied =>
      simp only [processPreviewEntries] at h
      exact ih _ _ _ _ h e he
    | impossible =>
      simp only [processPreviewEntries] at h
      exact ih _ _ _ _ h e he
    | redirect ra0 =>
      simp only [processPreviewEntries] at h
      split at h
      · exact absurd h (by simp)
      · split at h
        · exact absurd h (by simp)
        · rename_i hself hfull
          rcases ih _ _ _ _ h e he with hmem | hout
          · rcases List.mem_cons.mp hmem with rfl | hmem2
            · refine Or.inr ?_
              intro hcon
              apply hself
              simp only [rangeContains, decide_eq_true_eq]
              simpa using hcon
            · exact Or.inl hmem2
          · exact Or.inr hout

/-- A read component call that reports a redirect into the very range
through which it is dispatched is a hard failure of the dispatch step, for
every component store, machine state, address space, access, buffer and
pending stack. -/
theorem readDispatchComponent_self_redirect {σ : Type}
    (comps : Nat → Option (MemoryComponent σ)) (s : σ)
    (space address subS subE : Nat) (entry : (Nat × Nat) × Nat)
    (buffer : List Nat) (stack : List (Nat × Nat × Nat))
    (component : MemoryComponent σ) (newSlice : List Nat)
    (entries : List ((Nat × Nat) × ReadMemoryRecord))
    (hcomp : comps entry.2 = some component)
    (hcall : component.read_memory s (max (subS + address) entry.1.1)
      (getSlice buffer subS subE) space = some (newSlice, entries))
    (hex : ∃ e ∈ entries, ∃ ra, e.2 = ReadMemoryRecord.redirect ra ∧
      entry.1.1 ≤ ra ∧ ra < entry.1.2) :
    readDispatchComponent comps s space address subS subE entry buffer stack = none := by
  unfold readDispatchComponent
  rw [hcomp]
  simp only
  rw [hcall]
  simp only
  rw [processReadEntries_self_redirect entry.1 address entries stack [] hex]

/-- Write analogue of readDispatchComponent_self_redirect. -/
theorem writeDispatchComponent_self_redirect {σ : Type}
    (comps : Nat → Option (MemoryComponent σ)) (s : σ)
    (space address subS subE : Nat) (entry : (Nat × Nat) × Nat)
    (buffer : List Nat) (stack : List (Nat × Nat × Nat))
    (component : MemoryComponent σ) (newState : σ)
    (entries : List ((Nat × Nat) × WriteMemoryRecord))
    (hcomp : comps entry.2 = some component)
    (hcall : component.write_memory s (max (subS + address) entry.1.1)
      (getSlice buffer subS subE) space = some (newState, entries))
    (hex : ∃ e ∈ entries, ∃ ra, e.2 = WriteMemoryRecord.redirect ra ∧
      entry.1.1 ≤ ra ∧ ra < entry.1.2) :
    writeDispatchComponent comps s space address subS subE entry buffer stack = none := by
  unfold writeDispatchComponent
  rw [hcomp]
  simp only
  rw [hcall]
  simp only
  rw [processWriteEntries_self_redirect entry.1 address entries stack [] hex]

/-- Preview analogue of readDispatchComponent_self_redirect. -/
theorem previewDispatchComponent_self_redirect {σ : Type}
    (comps : Nat → Option (MemoryComponent σ)) (s : σ)
    (space address subS subE : Nat) (entry : (Nat × Nat) × Nat)
    (buffer : List Nat) (stack : List (Nat × Nat × Nat))
    (component : MemoryComponent σ) (newSlice : List Nat)
    (entries : List ((Nat × Nat) × PreviewMemoryRecord))
    (hcomp : comps entry.2 = some component)
    (hcall : component.preview_memory s (max (subS + address) entry.1.1)
      (getSlice buffer subS subE) space = some (newSlice, entries))
    (hex : ∃ e ∈ entries, ∃ ra, e.2 = PreviewMemoryRecord.redirect ra ∧
      entry.1.1 ≤ ra ∧ ra < entry.1.2) :
    previewDispatchComponent comps s space address subS subE entry buffer stack = none := by
  unfold previewDispatchComponent
  rw [hcomp]
  simp only
  rw [hcall]
  simp only
  rw [processPreviewEntries_self_redirect entry.1 address entries stack [] hex]

/-- Scanning an overlapping list splits: once a prefix of read component
calls completes without error, the scan of the full list continues from the
prefix's buffer and stack. -/
theorem readDispatchComponents_append {σ : Type}
    (comps : Nat → Option (MemoryComponent σ)) (s : σ) (space address subS subE : Nat) :
    ∀ (pre post : List ((Nat × Nat) × Nat)) (buffer : List Nat)
      (stack : List (Nat × Nat × Nat)) (buffer' : List Nat)
      (stack' : List (Nat × Nat × Nat)),
      readDispatchComponents comps s space address subS subE pre buffer stack
        = some (.inl (buffer', stack')) →
      readDispatchComponents comps s space address subS subE (pre ++ post) buffer stack
        = readDispatchComponents comps s space address subS subE post buffer' stack' := by
  intro pre
  induction pre with
  | nil =>
    intro post buffer stack buffer' stack' h
    simp only [readDispatchComponents, Option.some.injEq, Sum.inl.injEq,
      Prod.mk.injEq] at h
    rw [List.nil_append, h.1, h.2]
  | cons entry rest ih =>
    intro post buffer stack buffer' stack' h
    simp only [readDispatchComponents] at h
    rw [List.cons_append]
    simp only [readDispatchComponents]
    rcases hc : readDispatchComponent comps s space address subS subE entry buffer stack
      with _ | res
    · rw [hc] at h
      exact absurd h (by simp)
    · rw [hc] at h
      cases res with
      | inl cont =>
        obtain ⟨b1, s1⟩ := cont
        simp only at h
        exact ih post b1 s1 buffer' stack' h
      | inr det0 =>
        simp only at h
        exact absurd h (by simp)

/-- Write analogue of readDispatchComponents_append (the machine state is
the threaded accumulator). -/
theorem writeDispatchComponents_append {σ : Type}
    (comps : Nat → Option (MemoryComponent σ)) (space address subS subE : Nat)
    (buffer : List Nat) :
    ∀ (pre post : List ((Nat × Nat) × Nat)) (s : σ)
      (stack : List (Nat × Nat × Nat)) (s' : σ)
      (stack' : List (Nat × Nat × Nat)),
      writeDispatchComponents comps space address subS subE buffer pre s stack
        = some (.inl (s', stack')) →
      writeDispatchComponents comps space address subS subE buffer (pre ++ post) s stack
        = writeDispatchComponents comps space address subS subE buffer post s' stack' := by
  intro pre
  induction pre with
  | nil =>
    intro post s stack s' stack' h
    simp only [writeDispatchComponents, Option.some.injEq, Sum.inl.injEq,
      Prod.mk.injEq] at h
    rw [List.nil_append, h.1, h.2]
  | cons entry rest ih =>
    intro post s stack s' stack' h
    simp only [writeDispatchComponents] at h
    rw [List.cons_append]
    simp only [writeDispatchComponents]
    rcases hc : writeDispatchComponent comps s space address subS subE entry buffer stack
      with _ | res
    · rw [hc] at h
      exact absurd h (by simp)
    · rw [hc] at h
      cases res with
      | inl cont =>
        obtain ⟨s1, stack1⟩ := cont
        simp only at h
        exact ih post s1 stack1 s' stack' h
      | inr det0 =>
        simp only at h
        exact absurd h (by simp)

/-- Preview analogue of readDispatchComponents_append. -/
theorem previewDispatchComponents_append {σ : Type}
    (comps : Nat → Option (MemoryComponent σ)) (s : σ) (space address subS subE : Nat) :
    ∀ (pre post : List ((Nat × Nat) × Nat)) (buffer : List Nat)
      (stack : List (Nat × Nat × Nat)) (buffer' : List Nat)
      (stack' : List (Nat × Nat × Nat)),
      previewDispatchComponents comps s space address subS subE pre buffer stack
        = some (.inl (buffer', stack')) →
      previewDispatchComponents comps s space address subS subE (pre ++ post) buffer stack
        = previewDispatchComponents comps s space address subS subE post buffer' stack' := by
  intro pre
  induction pre with
  | nil =>
    intro post buffer stack buffer' stack' h
    simp only [previewDispatchComponents, Option.some.injEq, Sum.inl.injEq,
      Prod.mk.injEq] at h
    rw [List.nil_append, h.1, h.2]
  | cons entry rest ih =>
    intro post buffer stack buffer' stack' h
    simp only [previewDispatchComponents] at h
    rw [List.cons_append]
    simp only [previewDispatchComponents]
    rcases hc : previewDispatchComponent comps s space address subS subE entry buffer stack
      with _ | res
    · rw [hc] at h
      exact absurd h (by simp)
    · rw [hc] at h
      cases res with
      | inl cont =>
        obtain ⟨b1, s1⟩ := cont
        simp only at h
        exact ih post b1 s1 buffer' stack' h
      | inr det0 =>
        simp only at h
        exact absurd h (by simp)

/-- If the overlapping scan of the popped pending access reaches — after an
error-free prefix — a read component call that reports a redirect into its
dispatched range, the whole read loop is fatal, at every fuel and for every
population, component store, access and buffer. -/
theorem readDispatchLoop_self_redirect {σ : Type}
    (population : List ((Nat × Nat) × Nat)) (comps : Nat → Option (MemoryComponent σ))
    (s : σ) (space fuel address subS subE : Nat)
    (stack stack' : List (Nat × Nat × Nat)) (buffer buffer' : List Nat)
    (pre post : List ((Nat × Nat) × Nat)) (entry : (Nat × Nat) × Nat)
    (component : MemoryComponent σ) (newSlice : List Nat)
    (entries : List ((Nat × Nat) × ReadMemoryRecord))
    (hsplit : overlapping population (subS + address) (subE + address)
      = pre ++ entry :: post)
    (hpre : readDispatchComponents comps s space address subS subE pre buffer stack
      = some (.inl (buffer', stack')))
    (hcomp : comps entry.2 = some component)
    (hcall : component.read_memory s (max (subS + address) entry.1.1)
      (getSlice buffer' subS subE) space = some (newSlice, entries))
    (hex : ∃ e ∈ entries, ∃ ra, e.2 = ReadMemoryRecord.redirect ra ∧
      entry.1.1 ≤ ra ∧ ra < entry.1.2) :
    readDispatchLoop population comps s space (fuel + 1)
      ((address, subS, subE) :: stack) buffer = ReadOutcome.fatal := by
  have hnone := readDispatchComponent_self_redirect comps s space address subS subE entry
    buffer' stack' component newSlice entries hcomp hcall hex
  have hscan : readDispatchComponents comps s space address subS subE
      (overlapping population (subS + address) (subE + address)) buffer stack = none := by
    rw [hsplit, readDispatchComponents_append comps s space address subS subE pre
      (entry :: post) buffer stack buffer' stack' hpre]
    simp only [readDispatchComponents, hnone]
  simp only [readDispatchLoop, hscan]

/-- Write analogue of readDispatchLoop_self_redirect. -/
theorem writeDispatchLoop_self_redirect {σ : Type}
    (population : List ((Nat × Nat) × Nat)) (comps : Nat → Option (MemoryComponent σ))
    (space fuel address subS subE : Nat) (s s' newState : σ)
    (stack stack' : List (Nat × Nat × Nat)) (buffer : List Nat)
    (pre post : List ((Nat × Nat) × Nat)) (entry : (Nat × Nat) × Nat)
    (component : MemoryComponent σ)
    (entries : List ((Nat × Nat) × WriteMemoryRecord))
    (hsplit : overlapping population (subS + address) (subE + address)
      = pre ++ entry :: post)
    (hpre : writeDispatchComponents comps space address subS subE buffer pre s stack
      = some (.inl (s', stack')))
    (hcomp : comps entry.2 = some component)
    (hcall : component.write_memory s' (max (subS + address) entry.1.1)
      (getSlice buffer subS subE) space = some (newState, entries))
    (hex : ∃ e ∈ entries, ∃ ra, e.2 = WriteMemoryRecord.redirect ra ∧
      entry.1.1 ≤ ra ∧ ra < entry.1.2) :
    writeDispatchLoop population comps space buffer (fuel + 1)
      ((address, subS, subE) :: stack) s = WriteOutcome.fatal := by
  have hnone := writeDispatchComponent_self_redirect comps s' space address subS subE entry
    buffer stack' component newState entries hcomp hcall hex
  have hscan : writeDispatchComponents comps space address subS subE buffer
      (overlapping population (subS + address) (subE + address)) s stack = none := by
    rw [hsplit, writeDispatchComponents_append comps space address subS subE buffer pre
      (entry :: post) s stack s' stack' hpre]
    simp only [writeDispatchComponents, hnone]
  simp only [writeDispatchLoop, hscan]

/-- Preview analogue of readDispatchLoop_self_redirect. -/
theorem previewDispatchLoop_self_redirect {σ : Type}
    (population : List ((Nat × Nat) × Nat)) (comps : Nat → Option (MemoryComponent σ))
    (s : σ) (space fuel address subS subE : Nat)
    (stack stack' : List (Nat × Nat × Nat)) (buffer buffer' : List Nat)
    (pre post : List ((Nat × Nat) × Nat)) (entry : (Nat × Nat) × Nat)
    (component : MemoryComponent σ) (newSlice : List Nat)
    (entries : List ((Nat × Nat) × PreviewMemoryRecord))
    (hsplit : overlapping population (subS + address) (subE + address)
      = pre ++ entry :: post)
    (hpre : previewDispatchComponents comps s space address subS subE pre buffer stack
      = some (.inl (buffer', stack')))
    (hcomp : comps entry.2 = some component)
    (hcall : component.preview_memory s (max (subS + address) entry.1.1)
      (getSlice buffer' subS subE) space = some (newSlice, entries))
    (hex : ∃ e ∈ entries, ∃ ra, e.2 = PreviewMemoryRecord.redirect ra ∧
      entry.1.1 ≤ ra ∧ ra < entry.1.2) :
    previewDispatchLoop population comps s space (fuel + 1)
      ((address, subS, subE) :: stack) buffer = PreviewOutcome.fatal := by
  have hnone := previewDispatchComponent_self_redirect comps s space address subS subE entry
    buffer' stack' component newSlice entries hcomp hcall hex
  have hscan : previewDispatchComponents comps s space address subS subE
      (overlapping population (subS + address) (subE + address)) buffer stack = none := by
    rw [hsplit, previewDispatchComponents_append comps s space address subS subE pre
      (entry :: post) buffer stack buffer' stack' hpre]
    simp only [previewDispatchComponents, hnone]
  simp only [previewDispatchLoop, hscan]

/-- C7 amended: for every read, write or preview dispatch — any population,
component store, component behaviour, machine state, address, buffer and
pending stack — a component call that returns a Redirect whose target lies
within the registered range through which the access is currently being
dispatched trips the redirect-to-self assertion: the dispatching call is a
hard failure, the whole dispatch loop ends fatally wherever that component
sits in the overlapping scan, and record processing never pushes a pending
access targeting the dispatched range, so such a redirect is never
followed.  The check guards only that one range: in `selfMtt t` every
in-range target `t < 4` is fatal end to end, while the dual-range
component of `dualMtt`, redirecting into its other owned range `8..12`,
passes the assert and the redirect is followed normally. -/
theorem c7_self_redirect_check :
    (∀ (σ : Type) (comps : Nat → Option (MemoryComponent σ)) (s : σ)
      (space address subS subE : Nat) (entry : (Nat × Nat) × Nat)
      (buffer : List Nat) (stack : List (Nat × Nat × Nat))
      (component : MemoryComponent σ) (newSlice : List Nat)
      (entries : List ((Nat × Nat) × ReadMemoryRecord)),
      comps entry.2 = some component →
      component.read_memory s (max (subS + address) entry.1.1)
        (getSlice buffer subS subE) space = some (newSlice, entries) →
      (∃ e ∈ entries, ∃ ra, e.2 = ReadMemoryRecord.redirect ra ∧
        entry.1.1 ≤ ra ∧ ra < entry.1.2) →
      readDispatchComponent comps s space address subS subE entry buffer stack = none) ∧
    (∀ (σ : Type) (comps : Nat → Option (MemoryComponent σ)) (s : σ)
      (space address subS subE : Nat) (entry : (Nat × Nat) × Nat)
      (buffer : List Nat) (stack : List (Nat × Nat × Nat))
      (component : MemoryComponent σ) (newState : σ)
      (entries : List ((Nat × Nat) × WriteMemoryRecord)),
      comps entry.2 = some component →
      component.write_memory s (max (subS + address) entry.1.1)
        (getSlice buffer subS subE) space = some (newState, entries) →
      (∃ e ∈ entries, ∃ ra, e.2 = WriteMemoryRecord.redirect ra ∧
        entry.1.1 ≤ ra ∧ ra < entry.1.2) →
      writeDispatchComponent comps s space address subS subE entry buffer stack = none) ∧
    (∀ (σ : Type) (comps : Nat → Option (MemoryComponent σ)) (s : σ)
      (space address subS subE : Nat) (entry : (Nat × Nat) × Nat)
      (buffer : List Nat) (stack : List (Nat × Nat × Nat))
      (component : MemoryComponent σ) (newSlice : List Nat)
      (entries : List ((Nat × Nat) × PreviewMemoryRecord)),
      comps entry.2 = some component →
      component.preview_memory s (max (subS + address) entry.1.1)
        (getSlice buffer subS subE) space = some (newSlice, entries) →
      (∃ e ∈ entries, ∃ ra, e.2 = PreviewMemoryRecord.redirect ra ∧
        entry.1.1 ≤ ra ∧ ra < entry.1.2) →
      previewDispatchComponent comps s space address subS subE entry buffer stack = none) ∧
    (∀ (σ : Type) (population : List ((Nat × Nat) × Nat))
      (comps : Nat → Option (MemoryComponent σ)) (s : σ)
      (space fuel address subS subE : Nat)
      (stack stack' : List (Nat × Nat × Nat)) (buffer buffer' : List Nat)
      (pre post : List ((Nat × Nat) × Nat)) (entry : (Nat × Nat) × Nat)
      (component : MemoryComponent σ) (newSlice : List Nat)
      (entries : List ((Nat × Nat) × ReadMemoryRecord)),
      overlapping population (subS + address) (subE + address) = pre ++ entry :: post →
      readDispatchComponents comps s space address subS subE pre buffer stack
        = some (.inl (buffer', stack')) →
      comps entry.2 = some component →
      component.read_memory s (max (subS + address) entry.1.1)
        (getSlice buffer' subS subE) space = some (newSlice, entries) →
      (∃ e ∈ entries, ∃ ra, e.2 = ReadMemoryRecord.redirect ra ∧
        entry.1.1 ≤ ra ∧ ra < entry.1.2) →
      readDispatchLoop population comps s space (fuel + 1)
        ((address, subS, subE) :: stack) buffer = ReadOutcome.fatal) ∧
    (∀ (σ : Type) (population : List ((Nat × Nat) × Nat))
      (comps : Nat → Option (MemoryComponent σ))
      (space fuel address subS subE : Nat) (s s' newState : σ)
      (stack stack' : List (Nat × Nat × Nat)) (buffer : List Nat)
      (pre post : List ((Nat × Nat) × Nat)) (entry : (Nat × Nat) × Nat)
      (component : MemoryComponent σ)
      (entries : List ((Nat × Nat) × WriteMemoryRecord)),
      overlapping population (subS + address) (subE + address) = pre ++ entry :: post →
      writeDispatchComponents comps space address subS subE buffer pre s stack
        = some (.inl (s', stack')) →
      comps entry.2 = some component →
      component.write_memory s' (max (subS + address) entry.1.1)
        (getSlice buffer subS subE) space = some (newState, entries) →
      (∃ e ∈ entries, ∃ ra, e.2 = WriteMemoryRecord.redirect ra ∧
        entry.1.1 ≤ ra ∧ ra < entry.1.2) →
      writeDispatchLoop population comps space buffer (fuel + 1)
        ((address, subS, subE) :: stack) s = WriteOutcome.fatal) ∧
    (∀ (σ : Type) (population : List ((Nat × Nat) × Nat))
      (comps : Nat → Option (MemoryComponent σ)) (s : σ)
      (space fuel address subS subE : Nat)
      (stack stack' : List (Nat × Nat × Nat)) (buffer buffer' : List Nat)
      (pre post : List ((Nat × Nat) × Nat)) (entry : (Nat × Nat) × Nat)
      (component : MemoryComponent σ) (newSlice : List Nat)
      (entries : List ((Nat × Nat) × PreviewMemoryRecord)),
      overlapping population (subS + address) (subE + address) = pre ++ entry :: post →
      previewDispatchComponents comps s space address subS subE pre buffer stack
        = some (.inl (buffer', stack')) →
      comps entry.2 = some component →
      component.preview_memory s (max (subS + address) entry.1.1)
        (getSlice buffer' subS subE) space = some (newSlice, entries) →
      (∃ e ∈ entries, ∃ ra, e.2 = PreviewMemoryRecord.redirect ra ∧
        entry.1.1 ≤ ra ∧ ra < entry.1.2) →
      previewDispatchLoop population comps s space (fuel + 1)
        ((address, subS, subE) :: stack) buffer = PreviewOutcome.fatal) ∧
    (∀ (crange : Nat × Nat) (address : Nat)
      (entries : List ((Nat × Nat) × ReadMemoryRecord))
      (stack : List (Nat × Nat × Nat)) (acc detected : ReadErrorMap)
      (stack' : List (Nat × Nat × Nat)),
      processReadEntries crange address entries stack acc = some (detected, stack') →
      ∀ e ∈ stack', e ∈ stack ∨ ¬(crange.1 ≤ e.1 ∧ e.1 < crange.2)) ∧
    (∀ (crange : Nat × Nat) (address : Nat)
      (entries : List ((Nat × Nat) × WriteMemoryRecord))
      (stack : List (Nat × Nat × Nat)) (acc detected : WriteErrorMap)
      (stack' : List (Nat × Nat × Nat)),
      processWriteEntries crange address entries stack acc = some (detected, stack') →
      ∀ e ∈ stack', e ∈ stack ∨ ¬(crange.1 ≤ e.1 ∧ e.1 < crange.2)) ∧
    (∀ (crange : Nat × Nat) (address : Nat)
      (entries : List ((Nat × Nat) × PreviewMemoryRecord))
      (stack : List (Nat × Nat × Nat)) (acc detected : PreviewErrorMap)
      (stack' : List (Nat × Nat × Nat)),
      processPreviewEntries crange address entries stack acc = some (detected, stack') →
      ∀ e ∈ stack', e ∈ stack ∨ ¬(crange.1 ≤ e.1 ∧ e.1 < crange.2)) ∧
    (∀ t fuel : Nat, t < 4 →
      (selfMtt t).read () (fuel + 1) 0 [9] 0 = ReadOutcome.fatal ∧
      (selfMtt t).write () (fuel + 1) 0 [9] 0 = WriteOutcome.fatal ∧
      (selfMtt t).preview () (fuel + 1) 0 [9] 0 = PreviewOutcome.fatal) ∧
    (dualMtt.read () 3 0 [9] 0 = ReadOutcome.ok [7] ∧
     dualMtt.write () 3 0 [9] 0 = WriteOutcome.ok () ∧
     dualMtt.preview () 3 0 [9] 0 = PreviewOutcome.ok [7]) := by
  refine ⟨fun σ => @readDispatchComponent_self_redirect σ,
    fun σ => @writeDispatchComponent_self_redirect σ,
    fun σ => @previewDispatchComponent_self_redirect σ,
    fun σ => @readDispatchLoop_self_redirect σ,
    fun σ => @writeDispatchLoop_self_redirect σ,
    fun σ => @previewDispatchLoop_self_redirect σ,
    processReadEntries_pushes, processWriteEntries_pushes, processPreviewEntries_pushes,
    ?_, rfl, rfl, rfl⟩
  intro t fuel ht
  refine ⟨?_, ?_, ?_⟩
  · simp [selfMtt, MemoryTranslationTable.read, readDispatchLoop, readDispatchComponents,
      readDispatchComponent, processReadEntries, overlapping, redirectAllComponent,
      getSlice, setSlice, rangeContains, VALID_ACCESS_SIZES, MAX_ACCESS_SIZE, ht]
  · simp [selfMtt, MemoryTranslationTable.write, writeDispatchLoop, writeDispatchComponents,
      writeDispatchComponent, processWriteEntries, overlapping, redirectAllComponent,
      getSlice, setSlice, rangeContains, VALID_ACCESS_SIZES, MAX_ACCESS_SIZE, ht]
  · simp [selfMtt, MemoryTranslationTable.preview, previewDispatchLoop, previewDispatchComponents,
      previewDispatchComponent, processPreviewEntries, overlapping, redirectAllComponent,
      getSlice, setSlice, rangeContains, VALID_ACCESS_SIZES, MAX_ACCESS_SIZE, ht]

/-- Witness for C7 amended: the universal conjuncts applied at a concrete
single-component table whose calls redirect to address 2, inside the
dispatched range `0..4`, plus the end-to-end fatal outcome. -/
theorem c7_self_redirect_check_witness :
    readDispatchComponent (selfMtt 2).components () 0 0 0 1 ((0, 4), 0) [9] [] = none ∧
    writeDispatchComponent (selfMtt 2).components () 0 0 0 1 ((0, 4), 0) [9] [] = none ∧
    previewDispatchComponent (selfMtt 2).components () 0 0 0 1 ((0, 4), 0) [9] [] = none ∧
    readDispatchLoop [((0, 4), 0)] (selfMtt 2).components () 0 (0 + 1) [(0, 0, 1)] [9]
      = ReadOutcome.fatal ∧
    (selfMtt 2).read () (0 + 1) 0 [9] 0 = ReadOutcome.fatal := by
  obtain ⟨h1, h2, h3, h4, -, -, -, -, -, h10, -⟩ := c7_self_redirect_check
  refine ⟨?_, ?_, ?_, ?_, ?_⟩
  · exact h1 Unit (selfMtt 2).components () 0 0 0 1 ((0, 4), 0) [9] []
      (redirectAllComponent 2) [9] [((0, 1), ReadMemoryRecord.redirect 2)] rfl rfl
      ⟨((0, 1), ReadMemoryRecord.redirect 2), by simp, 2, rfl, by decide, by decide⟩
  · exact h2 Unit (selfMtt 2).components () 0 0 0 1 ((0, 4), 0) [9] []
      (redirectAllComponent 2) () [((0, 1), WriteMemoryRecord.redirect 2)] rfl rfl
      ⟨((0, 1), WriteMemoryRecord.redirect 2), by simp, 2, rfl, by decide, by decide⟩
  · exact h3 Unit (selfMtt 2).components () 0 0 0 1 ((0, 4), 0) [9] []
      (redirectAllComponent 2) [9] [((0, 1), PreviewMemoryRecord.redirect 2)] rfl rfl
      ⟨((0, 1), PreviewMemoryRecord.redirect 2), by simp, 2, rfl, by decide, by decide⟩
  · exact h4 Unit [((0, 4), 0)] (selfMtt 2).components () 0 0 0 0 1 [] [] [9] [9]
      [] [] ((0, 4), 0) (redirectAllComponent 2) [9]
      [((0, 1), ReadMemoryRecord.redirect 2)] rfl rfl rfl rfl
      ⟨((0, 1), ReadMemoryRecord.redirect 2), by simp, 2, rfl, by decide, by decide⟩
  · exact (h10 2 0 (by decide)).1

/-! ## Error-map provenance -/

/-- The error-map entries the dispatch derives from one read component
call: exactly its Denied records, in order (redirects produce no entry). -/
def readDeniedOf (entries : List ((Nat × Nat) × ReadMemoryRecord)) : ReadErrorMap :=
  entries.filterMap (fun e => match e.2 with
    | .denied => some (e.1, .denied)
    | .redirect _ => none)

/-- Same for write calls. -/
def writeDeniedOf (entries : List ((Nat × Nat) × WriteMemoryRecord)) : WriteErrorMap :=
  entries.filterMap (fun e => match e.2 with
    | .denied => some (e.1, .denied)
    | .redirect _ => none)

/-- Same for preview calls (Impossible also surfaces). -/
def previewDeniedOf (entries : List ((Nat × Nat) × PreviewMemoryRecord)) : PreviewErrorMap :=
  entries.filterMap (fun e => match e.2 with
    | .denied => some (e.1, .denied)
    | .redirect _ => none
    | .impossible => some (e.1, .impossible))

theorem processReadEntries_detected (crange : Nat × Nat) (address : Nat)
    (entries : List ((Nat × Nat) × ReadMemoryRecord)) :
    ∀ (stack : List (Nat × Nat × Nat)) (acc detected : ReadErrorMap)
      (stack' : List (Nat × Nat × Nat)),
      processReadEntries crange address entries stack acc = some (detected, stack') →
      detected = acc ++ readDeniedOf entries := by
  induction entries with
  | nil =>
    intro stack acc detected stack' h
    simp only [processReadEntries, Option.some.injEq, Prod.mk.injEq] at h
    simp [readDeniedOf, ← h.1]
  | cons e rest ih =>
    intro stack acc detected stack' h
    obtain ⟨r, rcd⟩ := e
    cases rcd with
    | denied =>
      simp only [processReadEntries] at h
      rw [ih _ _ _ _ h]
      simp [readDeniedOf]
    | redirect ra =>
      simp only [processReadEntries] at h
      split at h
      · exact absurd h (by simp)
      · split at h
        · exact absurd h (by simp)
        · rw [ih _ _ _ _ h]
          simp [readDeniedOf]

theorem processWriteEntries_detected (crange : Nat × Nat) (address : Nat)
    (entries : List ((Nat × Nat) × WriteMemoryRecord)) :
    ∀ (stack : List (Nat × Nat × Nat)) (acc detected : WriteErrorMap)
      (stack' : List (Nat × Nat × Nat)),
      processWriteEntries crange address entries stack acc = some (detected, stack') →
      detected = acc ++ writeDeniedOf entries := by
  induction entries with
  | nil =>
    intro stack acc detected stack' h
    simp only [processWriteEntries, Option.some.injEq, Prod.mk.injEq] at h
    simp [writeDeniedOf, ← h.1]
  | cons e rest ih =>
    intro stack acc detected stack' h
    obtain ⟨r, rcd⟩ := e
    cases rcd with
    | denied =>
      simp only [processWriteEntries] at h
      rw [ih _ _ _ _ h]
      simp [writeDeniedOf]
    | redirect ra =>
      simp only [processWriteEntries] at h
      split at h
      · exact absurd h (by simp)
      · split at h
        · exact absurd h (by simp)
        · rw [ih _ _ _ _ h]
          simp [writeDeniedOf]

theorem processPreviewEntries_detected (crange : Nat × Nat) (address : Nat)
    (entries : List ((Nat × Nat) × PreviewMemoryRecord)) :
    ∀ (stack : List (Nat × Nat × Nat)) (acc detected : PreviewErrorMap)
      (stack' : List (Nat × Nat × Nat)),
      processPreviewEntries crange address entries stack acc = some (detected, stack') →
      detected = acc ++ previewDeniedOf entries := by
  induction entries with
  | nil =>
    intro stack acc detected stack' h
    simp only [processPreviewEntries, Option.some.injEq, Prod.mk.injEq] at h
    simp [previewDeniedOf, ← h.1]
  | cons e rest ih =>
    intro stack acc detected stack' h
    obtain ⟨r, rcd⟩ := e
    cases rcd with
    | denied =>
      simp only [processPreviewEntries] at h
      rw [ih _ _ _ _ h]
      simp [previewDeniedOf]
    | redirect ra =>
      simp only [processPreviewEntries] at h
      split at h
      · exact absurd h (by simp)
      · split at h
        · exact absurd h (by simp)
        · rw [ih _ _ _ _ h]
          simp [previewDeniedOf]
    | impossible =>
      simp only [processPreviewEntries] at h
      rw [ih _ _ _ _ h]
      simp [previewDeniedOf]

theorem mem_readDeniedOf {entries : List ((Nat × Nat) × ReadMemoryRecord)}
    {e : (Nat × Nat) × ReadMemoryOperationErrorFailureType} (h : e ∈ readDeniedOf entries) :
    e.2 = ReadMemoryOperationErrorFailureType.denied := by
  obtain ⟨a, _, ha⟩ := List.mem_filterMap.mp h
  obtain ⟨r, rcd⟩ := a
  cases rcd <;> simp_all <;> simp [← ha]

theorem mem_writeDeniedOf {entries : List ((Nat × Nat) × WriteMemoryRecord)}
    {e : (Nat × Nat) × WriteMemoryOperationErrorFailureType} (h : e ∈ writeDeniedOf entries) :
    e.2 = WriteMemoryOperationErrorFailureType.denied := by
  obtain ⟨a, _, ha⟩ := List.mem_filterMap.mp h
  obtain ⟨r, rcd⟩ := a
  cases rcd <;> simp_all <;> simp [← ha]

theorem mem_previewDeniedOf {entries : List ((Nat × Nat) × PreviewMemoryRecord)}
    {e : (Nat × Nat) × PreviewMemoryOperationErrorFailureType} (h : e ∈ previewDeniedOf entries) :
    e.2 = PreviewMemoryOperationErrorFailureType.denied ∨
    e.2 = PreviewMemoryOperationErrorFailureType.impossible := by
  obtain ⟨a, _, ha⟩ := List.mem_filterMap.mp h
  obtain ⟨r, rcd⟩ := a
  cases rcd <;> simp_all <;> simp [← ha]

/-- The error map of a failed read is the Denied-image of the records of a
single component call: some registered component, invoked once, reported
exactly these (non-redirect) records, and they are non-empty. -/
def readErrorFromSingleCall {σ : Type} (comps : Nat → Option (MemoryComponent σ)) (s : σ)
    (space : Nat) (population : List ((Nat × Nat) × Nat)) (m : ReadErrorMap) : Prop :=
  ∃ entry ∈ population, ∃ component, comps entry.2 = some component ∧
    ∃ callAddress callBuffer newSlice entries,
      component.read_memory s callAddress callBuffer space = some (newSlice, entries) ∧
      m = readDeniedOf entries ∧ m ≠ []

/-- Write analogue of readErrorFromSingleCall. -/
def writeErrorFromSingleCall {σ : Type} (comps : Nat → Option (MemoryComponent σ))
    (space : Nat) (population : List ((Nat × Nat) × Nat)) (m : WriteErrorMap) : Prop :=
  ∃ entry ∈ population, ∃ component, comps entry.2 = some component ∧
    ∃ callState callAddress callBuffer newState entries,
      component.write_memory callState callAddress callBuffer space
        = some (newState, entries) ∧
      m = writeDeniedOf entries ∧ m ≠ []

/-- Preview analogue of readErrorFromSingleCall. -/
def previewErrorFromSingleCall {σ : Type} (comps : Nat → Option (MemoryComponent σ)) (s : σ)
    (space : Nat) (population : List ((Nat × Nat) × Nat)) (m : PreviewErrorMap) : Prop :=
  ∃ entry ∈ population, ∃ component, comps entry.2 = some component ∧
    ∃ callAddress callBuffer newSlice entries,
      component.preview_memory s callAddress callBuffer space = some (newSlice, entries) ∧
      m = previewDeniedOf entries ∧ m ≠ []

theorem readDispatchComponent_inr {σ : Type} {comps : Nat → Option (MemoryComponent σ)}
    {s : σ} {space address subS subE : Nat} {entry : (Nat × Nat) × Nat}
    {buffer : List Nat} {stack : List (Nat × Nat × Nat)} {detected : ReadErrorMap}
    (h : readDispatchComponent comps s space address subS subE entry buffer stack
      = some (.inr detected)) :
    ∃ component, comps entry.2 = some component ∧
      ∃ newSlice entries,
        component.read_memory s (max (subS + address) entry.1.1)
          (getSlice buffer subS subE) space = some (newSlice, entries) ∧
        detected = readDeniedOf entries ∧ detected ≠ [] := by
  unfold readDispatchComponent at h
  rcases hcomp : comps entry.2 with _ | component
  · rw [hcomp] at h
    exact absurd h (by simp)
  · rw [hcomp] at h
    simp only at h
    rcases hread : component.read_memory s (max (subS + address) entry.1.1)
        (getSlice buffer subS subE) space with _ | ⟨newSlice, entries⟩
    · rw [hread] at h
      exact absurd h (by simp)
    · rw [hread] at h
      simp only at h
      rcases hproc : processReadEntries entry.1 address entries stack [] with _ | ⟨det0, stack'⟩
      · rw [hproc] at h
        exact absurd h (by simp)
      · rw [hproc] at h
        simp only at h
        by_cases hemp : det0.isEmpty
        · rw [if_pos hemp] at h
          exact absurd h (by simp)
        · rw [if_neg hemp] at h
          simp only [Option.some.injEq, Sum.inr.injEq] at h
          subst h
          refine ⟨component, rfl, newSlice, entries, hread, ?_, ?_⟩
          · simpa using processReadEntries_detected entry.1 address entries stack []
              det0 stack' hproc
          · intro hnil
            exact hemp (by simp [hnil])

theorem writeDispatchComponent_inr {σ : Type} {comps : Nat → Option (MemoryComponent σ)}
    {s : σ} {space address subS subE : Nat} {entry : (Nat × Nat) × Nat}
    {buffer : List Nat} {stack : List (Nat × Nat × Nat)} {detected : WriteErrorMap}
    (h : writeDispatchComponent comps s space address subS subE entry buffer stack
      = some (.inr detected)) :
    ∃ component, comps entry.2 = some component ∧
      ∃ newState entries,
        component.write_memory s (max (subS + address) entry.1.1)
          (getSlice buffer subS subE) space = some (newState, entries) ∧
        detected = writeDeniedOf entries ∧ detected ≠ [] := by
  unfold writeDispatchComponent at h
  rcases hcomp : comps entry.2 with _ | component
  · rw [hcomp] at h
    exact absurd h (by simp)
  · rw [hcomp] at h
    simp only at h
    rcases hwrite : component.write_memory s (max (subS + address) entry.1.1)
        (getSlice buffer subS subE) space with _ | ⟨newState, entries⟩
    · rw [hwrite] at h
      exact absurd h (by simp)
    · rw [hwrite] at h
      simp only at h
      rcases hproc : processWriteEntries entry.1 address entries stack [] with _ | ⟨det0, stack'⟩
      · rw [hproc] at h
        exact absurd h (by simp)
      · rw [hproc] at h
        simp only at h
        by_cases hemp : det0.isEmpty
        · rw [if_pos hemp] at h
          exact absurd h (by simp)
        · rw [if_neg hemp] at h
          simp only [Option.some.injEq, Sum.inr.injEq] at h
          subst h
          refine ⟨component, rfl, newState, entries, hwrite, ?_, ?_⟩
          · simpa using processWriteEntries_detected entry.1 address entries stack []
              det0 stack' hproc
          · intro hnil
            exact hemp (by simp [hnil])

theorem previewDispatchComponent_inr {σ : Type} {comps : Nat → Option (MemoryComponent σ)}
    {s : σ} {space address subS subE : Nat} {entry : (Nat × Nat) × Nat}
    {buffer : List Nat} {stack : List (Nat × Nat × Nat)} {detected : PreviewErrorMap}
    (h : previewDispatchComponent comps s space address subS subE entry buffer stack
      = some (.inr detected)) :
    ∃ component, comps entry.2 = some component ∧
      ∃ newSlice entries,
        component.preview_memory s (max (subS + address) entry.1.1)
          (getSlice buffer subS subE) space = some (newSlice, entries) ∧
        detected = previewDeniedOf entries ∧ detected ≠ [] := by
  unfold previewDispatchComponent at h
  rcases hcomp : comps entry.2 with _ | component
  · rw [hcomp] at h
    exact absurd h (by simp)
  · rw [hcomp] at h
    simp only at h
    rcases hprev : component.preview_memory s (max (subS + address) entry.1.1)
        (getSlice buffer subS subE) space with _ | ⟨newSlice, entries⟩
    · rw [hprev] at h
      exact absurd h (by simp)
    · rw [hprev] at h
      simp only at h
      rcases hproc : processPreviewEntries entry.1 address entries stack [] with _ | ⟨det0, stack'⟩
      · rw [hproc] at h
        exact absurd h (by simp)
      · rw [hproc] at h
        simp only at h
        by_cases hemp : det0.isEmpty
        · rw [if_pos hemp] at h
          exact absurd h (by simp)
        · rw [if_neg hemp] at h
          simp only [Option.some.injEq, Sum.inr.injEq] at h
          subst h
          refine ⟨component, rfl, newSlice, entries, hprev, ?_, ?_⟩
          · simpa using processPreviewEntries_detected entry.1 address entries stack []
              det0 stack' hproc
          · intro hnil
            exact hemp (by simp [hnil])

theorem readDispatchComponents_err {σ : Type} (comps : Nat → Option (MemoryComponent σ))
    (s : σ) (space address subS subE : Nat) (compList : List ((Nat × Nat) × Nat)) :
    ∀ (buffer : List Nat) (stack : List (Nat × Nat × Nat)) (detected : ReadErrorMap),
      readDispatchComponents comps s space address subS subE compList buffer stack
        = some (.inr detected) →
      ∃ entry ∈ compList, ∃ component, comps entry.2 = some component ∧
        ∃ callAddress callBuffer newSlice entries,
          component.read_memory s callAddress callBuffer space = some (newSlice, entries) ∧
          detected = readDeniedOf entries ∧ detected ≠ [] := by
  induction compList with
  | nil =>
    intro buffer stack detected h
    simp [readDispatchComponents] at h
  | cons entry rest ih =>
    intro buffer stack detected h
    simp only [readDispatchComponents] at h
    rcases hcall : readDispatchComponent comps s space address subS subE entry buffer stack
      with _ | res
    · rw [hcall] at h
      exact absurd h (by simp)
    · rw [hcall] at h
      cases res with
      | inr det0 =>
        simp only [Option.some.injEq, Sum.inr.injEq] at h
        subst h
        obtain ⟨component, hcomp, newSlice, entries, hread, hdet, hne⟩ :=
          readDispatchComponent_inr hcall
        exact ⟨entry, List.mem_cons_self _ _, component, hcomp,
          max (subS + address) entry.1.1, getSlice buffer subS subE, newSlice, entries,
          hread, hdet, hne⟩
      | inl cont =>
        obtain ⟨buffer', stack'⟩ := cont
        simp only at h
        obtain ⟨entry', hmem, rest'⟩ := ih buffer' stack' detected h
        exact ⟨entry', List.mem_cons_of_mem _ hmem, rest'⟩

theorem writeDispatchComponents_err {σ : Type} (comps : Nat → Option (MemoryComponent σ))
    (space address subS subE : Nat) (buffer : List Nat)
    (compList : List ((Nat × Nat) × Nat)) :
    ∀ (s : σ) (stack : List (Nat × Nat × Nat)) (detected : WriteErrorMap),
      writeDispatchComponents comps space address subS subE buffer compList s stack
        = some (.inr detected) →
      ∃ entry ∈ compList, ∃ component, comps entry.2 = some component ∧
        ∃ callState callAddress callBuffer newState entries,
          component.write_memory callState callAddress callBuffer space
            = some (newState, entries) ∧
          detected = writeDeniedOf entries ∧ detected ≠ [] := by
  induction compList with
  | nil =>
    intro s stack detected h
    simp [writeDispatchComponents] at h
  | cons entry rest ih =>
    intro s stack detected h
    simp only [writeDispatchComponents] at h
    rcases hcall : writeDispatchComponent comps s space address subS subE entry buffer stack
      with _ | res
    · rw [hcall] at h
      exact absurd h (by simp)
    · rw [hcall] at h
      cases res with
      | inr det0 =>
        simp only [Option.some.injEq, Sum.inr.injEq] at h
        subst h
        obtain ⟨component, hcomp, newState, entries, hwrite, hdet, hne⟩ :=
          writeDispatchComponent_inr hcall
        exact ⟨entry, List.mem_cons_self _ _, component, hcomp,
          s, max (subS + address) entry.1.1, getSlice buffer subS subE, newState, entries,
          hwrite, hdet, hne⟩
      | inl cont =>
        obtain ⟨s', stack'⟩ := cont
        simp only at h
        obtain ⟨entry', hmem, rest'⟩ := ih s' stack' detected h
        exact ⟨entry', List.mem_cons_of_mem _ hmem, rest'⟩

theorem previewDispatchComponents_err {σ : Type} (comps : Nat → Option (MemoryComponent σ))
    (s : σ) (space address subS subE : Nat) (compList : List ((Nat × Nat) × Nat)) :
    ∀ (buffer : List Nat) (stack : List (Nat × Nat × Nat)) (detected : PreviewErrorMap),
      previewDispatchComponents comps s space address subS subE compList buffer stack
        = some (.inr detected) →
      ∃ entry ∈ compList, ∃ component, comps entry.2 = some component ∧
        ∃ callAddress callBuffer newSlice entries,
          component.preview_memory s callAddress callBuffer space = some (newSlice, entries) ∧
          detected = previewDeniedOf entries ∧ detected ≠ [] := by
  induction compList with
  | nil =>
    intro buffer stack detected h
    simp [previewDispatchComponents] at h
  | cons entry rest ih =>
    intro buffer stack detected h
    simp only [previewDispatchComponents] at h
    rcases hcall : previewDispatchComponent comps s space address subS subE entry buffer stack
      with _ | res
    · rw [hcall] at h
      exact absurd h (by simp)
    · rw [hcall] at h
      cases res with
      | inr det0 =>
        simp only [Option.some.injEq, Sum.inr.injEq] at h
        subst h
        obtain ⟨component, hcomp, newSlice, entries, hprev, hdet, hne⟩ :=
          previewDispatchComponent_inr hcall
        exact ⟨entry, List.mem_cons_self _ _, component, hcomp,
          max (subS + address) entry.1.1, getSlice buffer subS subE, newSlice, entries,
          hprev, hdet, hne⟩
      | inl cont =>
        obtain ⟨buffer', stack'⟩ := cont
        simp only at h
        obtain ⟨entry', hmem, rest'⟩ := ih buffer' stack' detected h
        exact ⟨entry', List.mem_cons_of_mem _ hmem, rest'⟩

theorem readDispatchLoop_err {σ : Type} (population : List ((Nat × Nat) × Nat))
    (comps : Nat → Option (MemoryComponent σ)) (s : σ) (space : Nat) (fuel : Nat) :
    ∀ (stack : List (Nat × Nat × Nat)) (buffer : List Nat) (m : ReadErrorMap),
      readDispatchLoop population comps s space fuel stack buffer = ReadOutcome.err m →
      readErrorFromSingleCall comps s space population m := by
  induction fuel with
  | zero =>
    intro stack buffer m h
    cases stack <;> simp [readDispatchLoop] at h
  | succ n ih =>
    intro stack buffer m h
    cases stack with
    | nil => simp [readDispatchLoop] at h
    | cons top stackRest =>
      obtain ⟨address, subS, subE⟩ := top
      simp only [readDispatchLoop] at h
      rcases hres : readDispatchComponents comps s space address subS subE
          (overlapping population (subS + address) (subE + address)) buffer stackRest
        with _ | res
      · rw [hres] at h
        exact absurd h (by simp)
      · rw [hres] at h
        cases res with
        | inr detected =>
          simp only [ReadOutcome.err.injEq] at h
          subst h
          obtain ⟨entry, hmem, rest'⟩ :=
            readDispatchComponents_err comps s space address subS subE _ buffer stackRest detected hres
          exact ⟨entry, (List.mem_filter.mp hmem).1, rest'⟩
        | inl cont =>
          obtain ⟨buffer', stack'⟩ := cont
          simp only at h
          exact ih stack' buffer' m h

theorem writeDispatchLoop_err {σ : Type} (population : List ((Nat × Nat) × Nat))
    (comps : Nat → Option (MemoryComponent σ)) (space : Nat) (buffer : List Nat) (fuel : Nat) :
    ∀ (stack : List (Nat × Nat × Nat)) (s : σ) (m : WriteErrorMap),
      writeDispatchLoop population comps space buffer fuel stack s = WriteOutcome.err m →
      writeErrorFromSingleCall comps space population m := by
  induction fuel with
  | zero =>
    intro stack s m h
    cases stack <;> simp [writeDispatchLoop] at h
  | succ n ih =>
    intro stack s m h
    cases stack with
    | nil => simp [writeDispatchLoop] at h
    | cons top stackRest =>
      obtain ⟨address, subS, subE⟩ := top
      simp only [writeDispatchLoop] at h
      rcases hres : writeDispatchComponents comps space address subS subE buffer
          (overlapping population (subS + address) (subE + address)) s stackRest
        with _ | res
      · rw [hres] at h
        exact absurd h (by simp)
      · rw [hres] at h
        cases res with
        | inr detected =>
          simp only [WriteOutcome.err.injEq] at h
          subst h
          obtain ⟨entry, hmem, rest'⟩ :=
            writeDispatchComponents_err comps space address subS subE buffer _ s stackRest detected hres
          exact ⟨entry, (List.mem_filter.mp hmem).1, rest'⟩
        | inl cont =>
          obtain ⟨s', stack'⟩ := cont
          simp only at h
          exact ih stack' s' m h

theorem previewDispatchLoop_err {σ : Type} (population : List ((Nat × Nat) × Nat))
    (comps : Nat → Option (MemoryComponent σ)) (s : σ) (space : Nat) (fuel : Nat) :
    ∀ (stack : List (Nat × Nat × Nat)) (buffer : List Nat) (m : PreviewErrorMap),
      previewDispatchLoop population comps s space fuel stack buffer = PreviewOutcome.err m →
      previewErrorFromSingleCall comps s space population m := by
  induction fuel with
  | zero =>
    intro stack buffer m h
    cases stack <;> simp [previewDispatchLoop] at h
  | succ n ih =>
    intro stack buffer m h
    cases stack with
    | nil => simp [previewDispatchLoop] at h
    | cons top stackRest =>
      obtain ⟨address, subS, subE⟩ := top
      simp only [previewDispatchLoop] at h
      rcases hres : previewDispatchComponents comps s space address subS subE
          (overlapping population (subS + address) (subE + address)) buffer stackRest
        with _ | res
      · rw [hres] at h
        exact absurd h (by simp)
      · rw [hres] at h
        cases res with
        | inr detected =>
          simp only [PreviewOutcome.err.injEq] at h
          subst h
          obtain ⟨entry, hmem, rest'⟩ :=
            previewDispatchComponents_err comps s space address subS subE _ buffer stackRest detected hres
          exact ⟨entry, (List.mem_filter.mp hmem).1, rest'⟩
        | inl cont =>
          obtain ⟨buffer', stack'⟩ := cont
          simp only at h
          exact ih stack' buffer' m h

theorem readDispatchLoop_no_overlap {σ : Type} (population : List ((Nat × Nat) × Nat))
    (comps : Nat → Option (MemoryComponent σ)) (s : σ) (space fuel address : Nat)
    (buffer : List Nat)
    (h : ∀ entry ∈ population,
      ¬(entry.1.1 < buffer.length + address ∧ address < entry.1.2)) :
    readDispatchLoop population comps s space (fuel + 1) [(address, 0, buffer.length)] buffer
      = ReadOutcome.ok buffer := by
  have hov : overlapping population (0 + address) (buffer.length + address) = [] := by
    rw [Nat.zero_add]
    exact List.filter_eq_nil_iff.mpr (by simpa using h)
  simp only [readDispatchLoop, hov, readDispatchComponents]

theorem writeDispatchLoop_no_overlap {σ : Type} (population : List ((Nat × Nat) × Nat))
    (comps : Nat → Option (MemoryComponent σ)) (space fuel address : Nat)
    (buffer : List Nat) (s : σ)
    (h : ∀ entry ∈ population,
      ¬(entry.1.1 < buffer.length + address ∧ address < entry.1.2)) :
    writeDispatchLoop population comps space buffer (fuel + 1) [(address, 0, buffer.length)] s
      = WriteOutcome.ok s := by
  have hov : overlapping population (0 + address) (buffer.length + address) = [] := by
    rw [Nat.zero_add]
    exact List.filter_eq_nil_iff.mpr (by simpa using h)
  simp only [writeDispatchLoop, hov, writeDispatchComponents]

theorem previewDispatchLoop_no_overlap {σ : Type} (population : List ((Nat × Nat) × Nat))
    (comps : Nat → Option (MemoryComponent σ)) (s : σ) (space fuel address : Nat)
    (buffer : List Nat)
    (h : ∀ entry ∈ population,
      ¬(entry.1.1 < buffer.length + address ∧ address < entry.1.2)) :
    previewDispatchLoop population comps s space (fuel + 1) [(address, 0, buffer.length)] buffer
      = PreviewOutcome.ok buffer := by
  have hov : overlapping population (0 + address) (buffer.length + address) = [] := by
    rw [Nat.zero_add]
    exact List.filter_eq_nil_iff.mpr (by simpa using h)
  simp only [previewDispatchLoop, hov, previewDispatchComponents]

theorem MemoryTranslationTable.read_err {σ : Type} {mtt : MemoryTranslationTable σ} {s : σ}
    {fuel address : Nat} {buffer : List Nat} {space : Nat} {m : ReadErrorMap}
    (h : mtt.read s fuel address buffer space = ReadOutcome.err m) :
    ∃ bus, mtt.busses space = some bus ∧
      readErrorFromSingleCall mtt.components s space bus.population m := by
  unfold MemoryTranslationTable.read at h
  split at h
  · rcases hb : mtt.busses space with _ | bus
    · rw [hb] at h
      exact absurd h (by simp)
    · rw [hb] at h
      simp only at h
      split at h
      · exact absurd h (by simp)
      · exact ⟨bus, rfl, readDispatchLoop_err bus.population mtt.components s space fuel _ _ m h⟩
  · exact absurd h (by simp)

theorem MemoryTranslationTable.write_err {σ : Type} {mtt : MemoryTranslationTable σ} {s : σ}
    {fuel address : Nat} {buffer : List Nat} {space : Nat} {m : WriteErrorMap}
    (h : mtt.write s fuel address buffer space = WriteOutcome.err m) :
    ∃ bus, mtt.busses space = some bus ∧
      writeErrorFromSingleCall mtt.components space bus.population m := by
  unfold MemoryTranslationTable.write at h
  split at h
  · rcases hb : mtt.busses space with _ | bus
    · rw [hb] at h
      exact absurd h (by simp)
    · rw [hb] at h
      simp only at h
      split at h
      · exact absurd h (by simp)
      · exact ⟨bus, rfl, writeDispatchLoop_err bus.population mtt.components space buffer fuel _ _ m h⟩
  · exact absurd h (by simp)

theorem MemoryTranslationTable.preview_err {σ : Type} {mtt : MemoryTranslationTable σ} {s : σ}
    {fuel address : Nat} {buffer : List Nat} {space : Nat} {m : PreviewErrorMap}
    (h : mtt.preview s fuel address buffer space = PreviewOutcome.err m) :
    ∃ bus, mtt.busses space = some bus ∧
      previewErrorFromSingleCall mtt.components s space bus.population m := by
  unfold MemoryTranslationTable.preview at h
  split at h
  · rcases hb : mtt.busses space with _ | bus
    · rw [hb] at h
      exact absurd h (by simp)
    · rw [hb] at h
      simp only at h
      split at h
      · exact absurd h (by simp)
      · exact ⟨bus, rfl, previewDispatchLoop_err bus.population mtt.components s space fuel _ _ m h⟩
  · exact absurd h (by simp)

theorem MemoryTranslationTable.read_unmapped {σ : Type} (mtt : MemoryTranslationTable σ)
    (s : σ) (fuel address : Nat) (buffer : List Nat) (space : Nat) (bus : BusInfo)
    (hbus : mtt.busses space = some bus) (hwidth : ¬(bus.width = 0 ∨ 64 < bus.width))
    (hlen : buffer.length ∈ VALID_ACCESS_SIZES)
    (hno : ∀ entry ∈ bus.population,
      ¬(entry.1.1 < buffer.length + address % 2 ^ bus.width ∧
        address % 2 ^ bus.width < entry.1.2)) :
    mtt.read s (fuel + 1) address buffer space = ReadOutcome.ok buffer := by
  unfold MemoryTranslationTable.read
  rw [if_pos hlen, hbus]
  simp only
  rw [if_neg hwidth]
  exact readDispatchLoop_no_overlap _ _ _ _ fuel _ buffer hno

theorem MemoryTranslationTable.write_unmapped {σ : Type} (mtt : MemoryTranslationTable σ)
    (s : σ) (fuel address : Nat) (buffer : List Nat) (space : Nat) (bus : BusInfo)
    (hbus : mtt.busses space = some bus) (hwidth : ¬(bus.width = 0 ∨ 64 < bus.width))
    (hlen : buffer.length ∈ VALID_ACCESS_SIZES)
    (hno : ∀ entry ∈ bus.population,
      ¬(entry.1.1 < buffer.length + address % 2 ^ bus.width ∧
        address % 2 ^ bus.width < entry.1.2)) :
    mtt.write s (fuel + 1) address buffer space = WriteOutcome.ok s := by
  unfold MemoryTranslationTable.write
  rw [if_pos hlen, hbus]
  simp only
  rw [if_neg hwidth]
  exact writeDispatchLoop_no_overlap _ _ _ fuel _ buffer s hno

theorem MemoryTranslationTable.preview_unmapped {σ : Type} (mtt : MemoryTranslationTable σ)
    (s : σ) (fuel address : Nat) (buffer : List Nat) (space : Nat) (bus : BusInfo)
    (hbus : mtt.busses space = some bus) (hwidth : ¬(bus.width = 0 ∨ 64 < bus.width))
    (hlen : buffer.length ∈ VALID_ACCESS_SIZES)
    (hno : ∀ entry ∈ bus.population,
      ¬(entry.1.1 < buffer.length + address % 2 ^ bus.width ∧
        address % 2 ^ bus.width < entry.1.2)) :
    mtt.preview s (fuel + 1) address buffer space = PreviewOutcome.ok buffer := by
  unfold MemoryTranslationTable.preview
  rw [if_pos hlen, hbus]
  simp only
  rw [if_neg hwidth]
  exact previewDispatchLoop_no_overlap _ _ _ _ fuel _ buffer hno

/-! ## C10: unmapped accesses succeed; OutOfBus is dead -/

/-- A one-component 8-bit bus populated only at `0..4`. -/
def c10Mtt : MemoryTranslationTable Unit :=
  ⟨fun space => if space = 0 then some ⟨8, [((0, 4), 0)]⟩ else none,
   fun cid => if cid = 0 then some trivialComponent else none⟩

/-- C10: an access whose masked range overlaps no registered range returns
Ok — for read/preview with the buffer left untouched, for write with the
machine state untouched — and no read, write or preview can ever surface
the OutOfBus failure variant: every error-map entry of a failed operation
is Denied (or, for preview, Impossible), never OutOfBus. -/
theorem c10_unmapped_and_outofbus_dead {σ : Type} (mtt : MemoryTranslationTable σ) (s : σ)
    (fuel address : Nat) (buffer : List Nat) (space : Nat) (bus : BusInfo)
    (hbus : mtt.busses space = some bus)
    (hwidth : ¬(bus.width = 0 ∨ 64 < bus.width))
    (hlen : buffer.length ∈ VALID_ACCESS_SIZES)
    (hno : ∀ entry ∈ bus.population,
      ¬(entry.1.1 < buffer.length + address % 2 ^ bus.width ∧
        address % 2 ^ bus.width < entry.1.2)) :
    (mtt.read s (fuel + 1) address buffer space = ReadOutcome.ok buffer ∧
     mtt.write s (fuel + 1) address buffer space = WriteOutcome.ok s ∧
     mtt.preview s (fuel + 1) address buffer space = PreviewOutcome.ok buffer) ∧
    (∀ (s' : σ) (fuel' addr' : Nat) (buf' : List Nat) (space' : Nat) (m : ReadErrorMap),
      mtt.read s' fuel' addr' buf' space' = ReadOutcome.err m →
        ∀ e ∈ m, e.2 ≠ ReadMemoryOperationErrorFailureType.outOfBus) ∧
    (∀ (s' : σ) (fuel' addr' : Nat) (buf' : List Nat) (space' : Nat) (m : WriteErrorMap),
      mtt.write s' fuel' addr' buf' space' = WriteOutcome.err m →
        ∀ e ∈ m, e.2 ≠ WriteMemoryOperationErrorFailureType.outOfBus) ∧
    (∀ (s' : σ) (fuel' addr' : Nat) (buf' : List Nat) (space' : Nat) (m : PreviewErrorMap),
      mtt.preview s' fuel' addr' buf' space' = PreviewOutcome.err m →
        ∀ e ∈ m, e.2 ≠ PreviewMemoryOperationErrorFailureType.outOfBus) := by
  refine ⟨⟨mtt.read_unmapped s fuel address buffer space bus hbus hwidth hlen hno,
    mtt.write_unmapped s fuel address buffer space bus hbus hwidth hlen hno,
    mtt.preview_unmapped s fuel address buffer space bus hbus hwidth hlen hno⟩, ?_, ?_, ?_⟩
  · intro s' fuel' addr' buf' space' m h e he
    obtain ⟨bus', -, prov⟩ := MemoryTranslationTable.read_err h
    unfold readErrorFromSingleCall at prov
    obtain ⟨entry, hmem, component, hcomp, ca, cb, ns, entries, hcall, hm, hne⟩ := prov
    subst hm
    rw [mem_readDeniedOf he]
    simp
  · intro s' fuel' addr' buf' space' m h e he
    obtain ⟨bus', -, prov⟩ := MemoryTranslationTable.write_err h
    unfold writeErrorFromSingleCall at prov
    obtain ⟨entry, hmem, component, hcomp, cs0, ca, cb, ns, entries, hcall, hm, hne⟩ := prov
    subst hm
    rw [mem_writeDeniedOf he]
    simp
  · intro s' fuel' addr' buf' space' m h e he
    obtain ⟨bus', -, prov⟩ := MemoryTranslationTable.preview_err h
    unfold previewErrorFromSingleCall at prov
    obtain ⟨entry, hmem, component, hcomp, ca, cb, ns, entries, hcall, hm, hne⟩ := prov
    subst hm
    rcases mem_previewDeniedOf he with hd | hd <;> rw [hd] <;> simp

/-- Witness for C10: a read/write/preview at address 100 of a bus populated
only at `0..4` succeeds without touching anything. -/
theorem c10_unmapped_and_outofbus_dead_witness :
    (c10Mtt.read () (1 + 1) 100 [9] 0 = ReadOutcome.ok [9] ∧
     c10Mtt.write () (1 + 1) 100 [9] 0 = WriteOutcome.ok () ∧
     c10Mtt.preview () (1 + 1) 100 [9] 0 = PreviewOutcome.ok [9]) ∧
    (∀ (s' : Unit) (fuel' addr' : Nat) (buf' : List Nat) (space' : Nat) (m : ReadErrorMap),
      c10Mtt.read s' fuel' addr' buf' space' = ReadOutcome.err m →
        ∀ e ∈ m, e.2 ≠ ReadMemoryOperationErrorFailureType.outOfBus) ∧
    (∀ (s' : Unit) (fuel' addr' : Nat) (buf' : List Nat) (space' : Nat) (m : WriteErrorMap),
      c10Mtt.write s' fuel' addr' buf' space' = WriteOutcome.err m →
        ∀ e ∈ m, e.2 ≠ WriteMemoryOperationErrorFailureType.outOfBus) ∧
    (∀ (s' : Unit) (fuel' addr' : Nat) (buf' : List Nat) (space' : Nat) (m : PreviewErrorMap),
      c10Mtt.preview s' fuel' addr' buf' space' = PreviewOutcome.err m →
        ∀ e ∈ m, e.2 ≠ PreviewMemoryOperationErrorFailureType.outOfBus) :=
  c10_unmapped_and_outofbus_dead c10Mtt () 1 100 [9] 0 ⟨8, [((0, 4), 0)]⟩ rfl
    (by decide) (by decide) (by decide)

/-! ## C1: error aggregation -/

/-- A spec-conformant component owning `cs..ce`: it serves reads and
previews by leaving the buffer as is and denies exactly the part of the
access that falls inside its own range (per the spec a component reports
denials as sub-ranges of the access it owns). -/
def denyOwnComponent (cs ce : Nat) : MemoryComponent Unit where
  read_memory := fun _ address buffer _ =>
    some (buffer, [((max address cs, min (address + buffer.length) ce), .denied)])
  write_memory := fun s address buffer _ =>
    some (s, [((max address cs, min (address + buffer.length) ce), .denied)])
  preview_memory := fun _ address buffer _ =>
    some (buffer, [((max address cs, min (address + buffer.length) ce), .denied)])

/-- An 8-bit bus whose `0..2` is split between two denying components:
component 0 owns `0..1`, component 1 owns `1..2`. -/
def splitMtt : MemoryTranslationTable Unit :=
  ⟨fun space => if space = 0 then some ⟨8, [((0, 1), 0), ((1, 2), 1)]⟩ else none,
   fun cid =>
      if cid = 0 then some (denyOwnComponent 0 1)
      else if cid = 1 then some (denyOwnComponent 1 2)
      else none⟩

/-- C1 counterexample.  On the split bus, `read(0, [u8;2])` straddles the
two components and both deny their own byte, yet the returned error map is
exactly component 0's `{0..1 ↦ Denied}`: it does not cover address 1, even
though component 1 (shown by the third equation, at the very call the
dispatch would have made) denies `1..2`.  And `read(4, [u8;2])` overlaps no
registered range at all, yet succeeds while leaving the buffer bytes
exactly as the caller passed them — the "success" populates nothing, as
the last two equations (different input garbage, different output) show. -/
theorem c1_error_aggregation_counterexample :
    splitMtt.read () 8 0 [9, 9] 0
      = ReadOutcome.err [((0, 1), ReadMemoryOperationErrorFailureType.denied)] ∧
    ¬ recordCovers [((0, 1), ReadMemoryOperationErrorFailureType.denied)] 1
        ReadMemoryOperationErrorFailureType.denied ∧
    (denyOwnComponent 1 2).read_memory () 1 [9, 9] 0
      = some ([9, 9], [((1, 2), ReadMemoryRecord.denied)]) ∧
    splitMtt.read () 8 4 [9, 9] 0 = ReadOutcome.ok [9, 9] ∧
    splitMtt.read () 8 4 [1, 2] 0 = ReadOutcome.ok [1, 2] :=
  ⟨rfl, by decide, rfl, rfl, rfl⟩

/-- C1 amended: a read/write/preview that fails returns a non-empty error
map consisting of exactly the Denied (and, for preview, Impossible)
records reported by one single component call — the first whose call
reported any; denials that other components of a straddling access would
report are not consulted and not included.  An operation whose masked
access range overlaps no registered component succeeds, but with the
buffer (for read/preview) and machine state (for write) left untouched
rather than populated. -/
theorem c1_error_aggregation_amended {σ : Type} (mtt : MemoryTranslationTable σ) (s : σ)
    (fuel address : Nat) (buffer : List Nat) (space : Nat) (bus : BusInfo)
    (hbus : mtt.busses space = some bus) :
    (∀ m, mtt.read s fuel address buffer space = ReadOutcome.err m →
      m ≠ [] ∧ readErrorFromSingleCall mtt.components s space bus.population m) ∧
    (∀ m, mtt.write s fuel address buffer space = WriteOutcome.err m →
      m ≠ [] ∧ writeErrorFromSingleCall mtt.components space bus.population m) ∧
    (∀ m, mtt.preview s fuel address buffer space = PreviewOutcome.err m →
      m ≠ [] ∧ previewErrorFromSingleCall mtt.components s space bus.population m) ∧
    (¬(bus.width = 0 ∨ 64 < bus.width) → buffer.length ∈ VALID_ACCESS_SIZES → 1 ≤ fuel →
      (∀ entry ∈ bus.population,
        ¬(entry.1.1 < buffer.length + address % 2 ^ bus.width ∧
          address % 2 ^ bus.width < entry.1.2)) →
      mtt.read s fuel address buffer space = ReadOutcome.ok buffer ∧
      mtt.write s fuel address buffer space = WriteOutcome.ok s ∧
      mtt.preview s fuel address buffer space = PreviewOutcome.ok buffer) := by
  refine ⟨?_, ?_, ?_, ?_⟩
  · intro m h
    obtain ⟨bus', hbus', prov⟩ := MemoryTranslationTable.read_err h
    rw [hbus] at hbus'
    cases hbus'
    have hne : m ≠ [] := by
      unfold readErrorFromSingleCall at prov
      obtain ⟨-, -, -, -, -, -, -, -, -, -, hne⟩ := prov
      exact hne
    exact ⟨hne, prov⟩
  · intro m h
    obtain ⟨bus', hbus', prov⟩ := MemoryTranslationTable.write_err h
    rw [hbus] at hbus'
    cases hbus'
    have hne : m ≠ [] := by
      unfold writeErrorFromSingleCall at prov
      obtain ⟨-, -, -, -, -, -, -, -, -, -, -, hne⟩ := prov
      exact hne
    exact ⟨hne, prov⟩
  · intro m h
    obtain ⟨bus', hbus', prov⟩ := MemoryTranslationTable.preview_err h
    rw [hbus] at hbus'
    cases hbus'
    have hne : m ≠ [] := by
      unfold previewErrorFromSingleCall at prov
      obtain ⟨-, -, -, -, -, -, -, -, -, -, hne⟩ := prov
      exact hne
    exact ⟨hne, prov⟩
  · intro hwidth hlen hfuel hno
    obtain ⟨n, rfl⟩ : ∃ n, fuel = n + 1 :=
      ⟨fuel - 1, by omega⟩
    exact ⟨mtt.read_unmapped s n address buffer space bus hbus hwidth hlen hno,
      mtt.write_unmapped s n address buffer space bus hbus hwidth hlen hno,
      mtt.preview_unmapped s n address buffer space bus hbus hwidth hlen hno⟩

/-- Witness for C1 amended on the concrete split bus at address 4. -/
theorem c1_error_aggregation_amended_witness :
    (∀ m, splitMtt.read () 1 4 [9, 9] 0 = ReadOutcome.err m →
      m ≠ [] ∧ readErrorFromSingleCall splitMtt.components () 0 [((0, 1), 0), ((1, 2), 1)] m) ∧
    (∀ m, splitMtt.write () 1 4 [9, 9] 0 = WriteOutcome.err m →
      m ≠ [] ∧ writeErrorFromSingleCall splitMtt.components 0 [((0, 1), 0), ((1, 2), 1)] m) ∧
    (∀ m, splitMtt.preview () 1 4 [9, 9] 0 = PreviewOutcome.err m →
      m ≠ [] ∧ previewErrorFromSingleCall splitMtt.components () 0 [((0, 1), 0), ((1, 2), 1)] m) ∧
    (¬((8:Nat) = 0 ∨ 64 < (8:Nat)) → ([9, 9] : List Nat).length ∈ VALID_ACCESS_SIZES →
      1 ≤ 1 →
      (∀ entry ∈ [((0, 1), 0), ((1, 2), 1)],
        ¬(entry.1.1 < ([9, 9] : List Nat).length + 4 % 2 ^ (8:Nat) ∧
          4 % 2 ^ (8:Nat) < entry.1.2)) →
      splitMtt.read () 1 4 [9, 9] 0 = ReadOutcome.ok [9, 9] ∧
      splitMtt.write () 1 4 [9, 9] 0 = WriteOutcome.ok () ∧
      splitMtt.preview () 1 4 [9, 9] 0 = PreviewOutcome.ok [9, 9]) :=
  c1_error_aggregation_amended splitMtt () 1 4 [9, 9] 0 ⟨8, [((0, 1), 0), ((1, 2), 1)]⟩ rfl

/-! ## C4: read-after-write on StandardMemory -/

theorem chunk_bounds (rs re sc ec idx : Nat)
    (hsc : sc = rs / CHUNK_SIZE) (hec : ec = (re + (CHUNK_SIZE - 1)) / CHUNK_SIZE)
    (hrs : rs < re) (hidx : sc ≤ idx) (hlt : idx < ec) :
    idx * CHUNK_SIZE + chunkStart sc idx rs = max rs (idx * CHUNK_SIZE) ∧
    idx * CHUNK_SIZE + chunkEnd ec idx re = min re ((idx + 1) * CHUNK_SIZE) := by
  unfold chunkStart chunkEnd CHUNK_SIZE at *
  constructor
  · split <;> omega
  · split
    · split <;> omega
    · omega

theorem smWriteGo_spec (buffer : List Nat) (rs re sc ec nc : Nat)
    (hsc : sc = rs / CHUNK_SIZE) (hec : ec = (re + (CHUNK_SIZE - 1)) / CHUNK_SIZE)
    (hrs : rs < re) (hlen : buffer.length = re - rs) (hnum : ec ≤ nc) :
    ∀ (cnt idx off : Nat) (mem : Nat → Nat),
      sc ≤ idx → idx + cnt = ec → off = max rs (idx * CHUNK_SIZE) - rs →
      smWriteGo buffer rs re sc ec nc idx cnt off mem
        = some (fun i => if max rs (idx * CHUNK_SIZE) ≤ i ∧ i < re
            then buffer.getD (i - rs) 0 else mem i) := by
  intro cnt
  induction cnt with
  | zero =>
    intro idx off mem hidx hcnt hoff
    have hge : re ≤ idx * CHUNK_SIZE := by
      unfold CHUNK_SIZE at *
      omega
    refine congrArg some (funext fun i => ?_)
    rw [if_neg]
    intro ⟨h1, h2⟩
    omega
  | succ n ih =>
    intro idx off mem hidx hcnt hoff
    have hlt : idx < ec := by omega
    have hnc : idx < nc := by omega
    obtain ⟨hG, hH⟩ := chunk_bounds rs re sc ec idx hsc hec hrs hidx hlt
    have hGle : rs ≤ max rs (idx * CHUNK_SIZE) := le_max_left _ _
    have hGH : max rs (idx * CHUNK_SIZE) ≤ min re ((idx + 1) * CHUNK_SIZE) := by
      unfold CHUNK_SIZE at *
      omega
    have hHre : min re ((idx + 1) * CHUNK_SIZE) ≤ re := min_le_left _ _
    simp only [smWriteGo]
    rw [if_pos hnc, if_neg (by omega)]
    by_cases hbreak : buffer.length ≤ off + (chunkEnd ec idx re - chunkStart sc idx rs)
    · have hHeq : min re ((idx + 1) * CHUNK_SIZE) = re := by omega
      rw [if_pos hbreak]
      refine congrArg some (funext fun i => ?_)
      by_cases hi : max rs (idx * CHUNK_SIZE) ≤ i ∧ i < re
      · rw [if_pos (by omega), if_pos hi]
        congr 1
        omega
      · rw [if_neg (by omega), if_neg hi]
    · have hHeq : min re ((idx + 1) * CHUNK_SIZE) = (idx + 1) * CHUNK_SIZE := by omega
      have hHlt : (idx + 1) * CHUNK_SIZE < re := by omega
      have hlast : idx + 1 ≤ ec - 1 := by
        unfold CHUNK_SIZE at *
        omega
      rw [if_neg hbreak]
      rw [ih (idx + 1) (off + (chunkEnd ec idx re - chunkStart sc idx rs)) _
        (by omega) (by omega) (by unfold CHUNK_SIZE at *; omega)]
      refine congrArg some (funext fun i => ?_)
      by_cases hi1 : max rs ((idx + 1) * CHUNK_SIZE) ≤ i ∧ i < re
      · rw [if_pos hi1, if_pos (by unfold CHUNK_SIZE at *; omega)]
      · rw [if_neg hi1]
        by_cases hi2 : max rs (idx * CHUNK_SIZE) ≤ i ∧ i < re
        · rw [if_pos (by omega), if_pos hi2]
          congr 1
          omega
        · rw [if_neg (by omega), if_neg hi2]

theorem smReadGo_spec (mem : Nat → Nat) (rs re sc ec nc : Nat)
    (hsc : sc = rs / CHUNK_SIZE) (hec : ec = (re + (CHUNK_SIZE - 1)) / CHUNK_SIZE)
    (hrs : rs < re) (hnum : ec ≤ nc) :
    ∀ (cnt idx : Nat) (acc : List Nat) (bufLen : Nat),
      sc ≤ idx → idx + cnt = ec →
      acc.length = max rs (idx * CHUNK_SIZE) - rs → bufLen = re - rs →
      smReadGo mem rs re sc ec nc idx cnt acc bufLen
        = some (acc ++ (List.range (re - max rs (idx * CHUNK_SIZE))).map
            (fun j => mem (max rs (idx * CHUNK_SIZE) + j))) := by
  intro cnt
  induction cnt with
  | zero =>
    intro idx acc bufLen hidx hcnt hacc hbuf
    have hge : re ≤ idx * CHUNK_SIZE := by
      unfold CHUNK_SIZE at *
      omega
    have h0 : re - max rs (idx * CHUNK_SIZE) = 0 := by omega
    rw [h0]
    simp [smReadGo]
  | succ n ih =>
    intro idx acc bufLen hidx hcnt hacc hbuf
    have hlt : idx < ec := by omega
    have hnc : idx < nc := by omega
    obtain ⟨hG, hH⟩ := chunk_bounds rs re sc ec idx hsc hec hrs hidx hlt
    have hGle : rs ≤ max rs (idx * CHUNK_SIZE) := le_max_left _ _
    have hGH : max rs (idx * CHUNK_SIZE) ≤ min re ((idx + 1) * CHUNK_SIZE) := by
      unfold CHUNK_SIZE at *
      omega
    have hHre : min re ((idx + 1) * CHUNK_SIZE) ≤ re := min_le_left _ _
    have hpiece :
        (List.range (chunkEnd ec idx re - chunkStart sc idx rs)).map
            (fun j => mem (idx * CHUNK_SIZE + chunkStart sc idx rs + j))
          = (List.range (min re ((idx + 1) * CHUNK_SIZE) - max rs (idx * CHUNK_SIZE))).map
            (fun j => mem (max rs (idx * CHUNK_SIZE) + j)) := by
      have h1 : chunkEnd ec idx re - chunkStart sc idx rs
          = min re ((idx + 1) * CHUNK_SIZE) - max rs (idx * CHUNK_SIZE) := by omega
      rw [h1]
      refine List.map_congr_left fun j hj => ?_
      exact congrArg mem (by omega)
    have hlen2 : (acc ++ (List.range (min re ((idx + 1) * CHUNK_SIZE)
          - max rs (idx * CHUNK_SIZE))).map
            (fun j => mem (max rs (idx * CHUNK_SIZE) + j))).length
        = min re ((idx + 1) * CHUNK_SIZE) - rs := by
      simp only [List.length_append, List.length_map, List.length_range]
      omega
    simp only [smReadGo]
    rw [if_pos hnc, if_neg (by omega), hpiece]
    split
    · rename_i hbr
      rw [hlen2] at hbr
      have hHeq : min re ((idx + 1) * CHUNK_SIZE) = re := by omega
      rw [hHeq]
    · rename_i hbr
      rw [hlen2] at hbr
      have hHeq : min re ((idx + 1) * CHUNK_SIZE) = (idx + 1) * CHUNK_SIZE := by omega
      have hHlt : (idx + 1) * CHUNK_SIZE < re := by omega
      have hmax2 : max rs ((idx + 1) * CHUNK_SIZE) = (idx + 1) * CHUNK_SIZE := by omega
      rw [ih (idx + 1) _ bufLen (by omega) (by omega)
        (by rw [hlen2, hHeq, hmax2]) hbuf]
      refine congrArg some ?_
      rw [List.append_assoc]
      congr 1
      have hsplit : re - max rs (idx * CHUNK_SIZE)
          = (min re ((idx + 1) * CHUNK_SIZE) - max rs (idx * CHUNK_SIZE))
            + (re - max rs ((idx + 1) * CHUNK_SIZE)) := by omega
      rw [hsplit, List.range_add, List.map_append, List.map_map, hmax2, hHeq]
      refine congrArg _ ?_
      refine List.map_congr_left fun j hj => ?_
      simp only [Function.comp]
      exact congrArg mem (by omega)

theorem StandardMemory.write_memory_in_range (cfg : StandardMemoryConfig)
    (st : StandardMemoryState) (address : Nat) (data : List Nat)
    (hw : cfg.writable = true) (hlen : data.length ∈ VALID_ACCESS_SIZES)
    (hne : data.length ≠ 0)
    (hlo : cfg.rangeStart ≤ address) (hhi : address + data.length ≤ cfg.rangeEnd) :
    StandardMemory.write_memory cfg st address data
      = some (⟨fun i =>
          if address - cfg.rangeStart ≤ i ∧ i < address - cfg.rangeStart + data.length
          then data.getD (i - (address - cfg.rangeStart)) 0 else st.mem i⟩, []) := by
  have h1 : ¬(cfg.rangeEnd < address + data.length) := by omega
  have h2 : ¬(address < cfg.rangeStart) := by omega
  have herr : smWriteErrors cfg address data.length = [] := by
    simp [smWriteErrors, hw, h1, h2]
  have hmaxrs : max (address - cfg.rangeStart)
      ((address - cfg.rangeStart) / CHUNK_SIZE * CHUNK_SIZE) = address - cfg.rangeStart := by
    simp only [CHUNK_SIZE]
    omega
  have hspec := smWriteGo_spec data (address - cfg.rangeStart)
    (address - cfg.rangeStart + data.length)
    ((address - cfg.rangeStart) / CHUNK_SIZE)
    ((address - cfg.rangeStart + data.length + (CHUNK_SIZE - 1)) / CHUNK_SIZE)
    cfg.numChunks rfl rfl (by omega) (by omega)
    (by simp only [CHUNK_SIZE, StandardMemoryConfig.numChunks]; omega)
    ((address - cfg.rangeStart + data.length + (CHUNK_SIZE - 1)) / CHUNK_SIZE
      - (address - cfg.rangeStart) / CHUNK_SIZE)
    ((address - cfg.rangeStart) / CHUNK_SIZE) 0 st.mem (le_refl _)
    (by simp only [CHUNK_SIZE]; omega) (by rw [hmaxrs]; omega)
  unfold StandardMemory.write_memory
  rw [if_pos hlen]
  simp only [herr, List.isEmpty_nil, if_true]
  unfold StandardMemory.write_internal
  dsimp only
  rw [hspec]
  simp only [hmaxrs]

theorem StandardMemory.read_memory_in_range (cfg : StandardMemoryConfig)
    (st : StandardMemoryState) (address : Nat) (out0 : List Nat)
    (hr : cfg.readable = true) (hlen : out0.length ∈ VALID_ACCESS_SIZES)
    (hne : out0.length ≠ 0)
    (hlo : cfg.rangeStart ≤ address) (hhi : address + out0.length ≤ cfg.rangeEnd) :
    StandardMemory.read_memory cfg st address out0
      = some ((List.range out0.length).map
          (fun j => st.mem (address - cfg.rangeStart + j)), []) := by
  have h1 : ¬(cfg.rangeEnd < address + out0.length) := by omega
  have h2 : ¬(address < cfg.rangeStart) := by omega
  have herr : smReadErrors cfg address out0.length = [] := by
    simp [smReadErrors, hr, h1, h2]
  have hmaxrs : max (address - cfg.rangeStart)
      ((address - cfg.rangeStart) / CHUNK_SIZE * CHUNK_SIZE) = address - cfg.rangeStart := by
    simp only [CHUNK_SIZE]
    omega
  have hspec := smReadGo_spec st.mem (address - cfg.rangeStart)
    (address - cfg.rangeStart + out0.length)
    ((address - cfg.rangeStart) / CHUNK_SIZE)
    ((address - cfg.rangeStart + out0.length + (CHUNK_SIZE - 1)) / CHUNK_SIZE)
    cfg.numChunks rfl rfl (by omega)
    (by simp only [CHUNK_SIZE, StandardMemoryConfig.numChunks]; omega)
    ((address - cfg.rangeStart + out0.length + (CHUNK_SIZE - 1)) / CHUNK_SIZE
      - (address - cfg.rangeStart) / CHUNK_SIZE)
    ((address - cfg.rangeStart) / CHUNK_SIZE) [] out0.length
    (le_refl _) (by simp only [CHUNK_SIZE]; omega)
    (by rw [List.length_nil, hmaxrs]; omega) (by omega)
  unfold StandardMemory.read_memory
  rw [if_pos hlen]
  simp only [herr, List.isEmpty_nil, if_true]
  rw [hspec]
  simp only [hmaxrs, List.nil_append]
  have hn : address - cfg.rangeStart + out0.length - (address - cfg.rangeStart)
      = out0.length := by omega
  simp only [hn]
  have hlenmap : ((List.range out0.length).map
      (fun j => st.mem (address - cfg.rangeStart + j))).length = out0.length := by
    simp
  rw [hlenmap, List.drop_length, List.append_nil]

/-- C4: read-after-write.  In a readable and writable StandardMemory whose
assigned range covers the access, for any data of a valid access size
(including accesses straddling a 4096-byte chunk boundary — the position of
the access relative to chunks is unconstrained), write_memory succeeds with
no error records and a subsequent read_memory of the same span succeeds,
with no error records, returning exactly the written bytes. -/
theorem c4_read_after_write (cfg : StandardMemoryConfig) (st : StandardMemoryState)
    (address : Nat) (data out0 : List Nat)
    (hr : cfg.readable = true) (hw : cfg.writable = true)
    (hlen : data.length ∈ VALID_ACCESS_SIZES) (hout : out0.length = data.length)
    (hlo : cfg.rangeStart ≤ address) (hhi : address + data.length ≤ cfg.rangeEnd) :
    ∃ st', StandardMemory.write_memory cfg st address data = some (st', []) ∧
      StandardMemory.read_memory cfg st' address out0 = some (data, []) := by
  have hne : data.length ≠ 0 := by
    have hlen' := hlen
    simp only [VALID_ACCESS_SIZES, List.mem_cons, List.not_mem_nil, or_false] at hlen'
    rcases hlen' with h | h | h | h <;> omega
  refine ⟨⟨fun i =>
      if address - cfg.rangeStart ≤ i ∧ i < address - cfg.rangeStart + data.length
      then data.getD (i - (address - cfg.rangeStart)) 0 else st.mem i⟩,
    StandardMemory.write_memory_in_range cfg st address data hw hlen hne hlo hhi, ?_⟩
  rw [StandardMemory.read_memory_in_range cfg _ address out0 hr
    (by rw [hout]; exact hlen) (by omega) hlo (by omega)]
  refine congrArg some ?_
  simp only [Prod.mk.injEq]
  refine ⟨?_, trivial⟩
  refine List.ext_getElem (by simp [hout]) ?_
  intro i h1 h2
  simp only [List.getElem_map, List.getElem_range]
  rw [if_pos (by omega)]
  rw [show address - cfg.rangeStart + i - (address - cfg.rangeStart) = i from by omega]
  exact List.getD_eq_getElem data 0 h2

/-- Witness for C4 at a write of 8 bytes straddling the first chunk
boundary (local offsets 4092..4100 of an 8192-byte memory). -/
theorem c4_read_after_write_witness :
    ∃ st', StandardMemory.write_memory ⟨true, true, 8, 0, 8192⟩ snapshotState0 4092
        [1, 2, 3, 4, 5, 6, 7, 8] = some (st', []) ∧
      StandardMemory.read_memory ⟨true, true, 8, 0, 8192⟩ st' 4092 [0, 0, 0, 0, 0, 0, 0, 0]
        = some ([1, 2, 3, 4, 5, 6, 7, 8], []) :=
  c4_read_after_write ⟨true, true, 8, 0, 8192⟩ snapshotState0 4092
    [1, 2, 3, 4, 5, 6, 7, 8] [0, 0, 0, 0, 0, 0, 0, 0]
    rfl rfl (by decide) (by decide) (by decide) (by decide)

/-! ## C8 and C9: the sprite blit -/

theorem drawPixelFold_spec (px py y byte : Nat) :
    ∀ (n : Nat) (fb : Framebuffer) (col : Bool),
      (List.range n).foldl (drawPixelStep px py y byte) (fb, col)
        = (fun a b =>
            if px ≤ a ∧ a < px + n ∧ b = py + y ∧ a < 64 ∧ b < 32
            then xor (spriteBit byte (a - px)) (fb a b) else fb a b,
           col || (List.range n).any (fun x =>
             spriteBit byte x && decide (px + x < 64) && decide (py + y < 32)
               && fb (px + x) (py + y))) := by
  intro n
  induction n with
  | zero =>
    intro fb col
    simp only [List.range_zero, List.foldl_nil, List.any_nil, Bool.or_false, Prod.mk.injEq]
    refine ⟨?_, trivial⟩
    funext a b
    rw [if_neg (by omega)]
  | succ n ih =>
    intro fb col
    rw [List.range_succ, List.foldl_append, List.foldl_cons, List.foldl_nil, ih]
    unfold drawPixelStep
    dsimp only
    by_cases hclip : 64 ≤ px + n ∨ 32 ≤ py + y
    · rw [if_pos hclip]
      simp only [Prod.mk.injEq]
      constructor
      · funext a b
        have hiff : (px ≤ a ∧ a < px + n ∧ b = py + y ∧ a < 64 ∧ b < 32)
            ↔ (px ≤ a ∧ a < px + (n + 1) ∧ b = py + y ∧ a < 64 ∧ b < 32) := by omega
        simp only [hiff]
      · rw [List.any_append, List.any_cons, List.any_nil]
        rcases hclip with h | h
        · simp [show ¬(px + n < 64) from by omega]
        · simp [show ¬(py + y < 32) from by omega]
    · rw [if_neg hclip]
      push_neg at hclip
      obtain ⟨h64, h32⟩ := hclip
      simp only [Prod.mk.injEq]
      constructor
      · funext a b
        by_cases heq : a = px + n ∧ b = py + y
        · obtain ⟨rfl, rfl⟩ : a = px + n ∧ b = py + y := heq
          rw [if_pos ⟨rfl, rfl⟩, if_neg (by omega), if_pos (by omega)]
          rw [show px + n - px = n from by omega]
        · rw [if_neg heq]
          have hiff : (px ≤ a ∧ a < px + n ∧ b = py + y ∧ a < 64 ∧ b < 32)
              ↔ (px ≤ a ∧ a < px + (n + 1) ∧ b = py + y ∧ a < 64 ∧ b < 32) := by
            constructor
            · intro hc
              exact ⟨hc.1, by omega, hc.2.2⟩
            · intro hc
              refine ⟨hc.1, ?_, hc.2.2⟩
              rcases Nat.lt_succ_iff_lt_or_eq.mp (by omega : a < px + n + 1) with h | h
              · omega
              · exact absurd ⟨h.symm ▸ rfl, hc.2.2.1⟩ heq
          simp only [hiff]
      · rw [if_neg (by omega), List.any_append, List.any_cons, List.any_nil]
        simp [h64, h32, Bool.or_assoc]

theorem drawRowsGo_spec (px py : Nat) :
    ∀ (rows : List Nat) (y0 : Nat) (fb : Framebuffer) (col : Bool),
      ((drawRowsGo px py rows y0 (fb, col)).1 = fun a b =>
          if px ≤ a ∧ a < px + 8 ∧ py + y0 ≤ b ∧ b < py + y0 + rows.length ∧ a < 64 ∧ b < 32
          then xor (spriteBit (rows.getD (b - (py + y0)) 0) (a - px)) (fb a b) else fb a b) ∧
      ((drawRowsGo px py rows y0 (fb, col)).2 = true ↔
        (col = true ∨ ∃ i, i < rows.length ∧ ∃ x, x < 8 ∧
          spriteBit (rows.getD i 0) x = true ∧ px + x < 64 ∧ py + y0 + i < 32 ∧
          fb (px + x) (py + (y0 + i)) = true)) := by
  intro rows
  induction rows with
  | nil =>
    intro y0 fb col
    constructor
    · funext a b
      rw [if_neg (by simp; omega)]
      rfl
    · simp [drawRowsGo]
  | cons r rest ih =>
    intro y0 fb col
    have hfold : drawRowFold px py y0 r (fb, col)
        = (fun a b =>
            if px ≤ a ∧ a < px + 8 ∧ b = py + y0 ∧ a < 64 ∧ b < 32
            then xor (spriteBit r (a - px)) (fb a b) else fb a b,
           col || (List.range 8).any (fun x =>
             spriteBit r x && decide (px + x < 64) && decide (py + y0 < 32)
               && fb (px + x) (py + y0))) := by
      unfold drawRowFold
      exact drawPixelFold_spec px py y0 r 8 fb col
    have hstep : drawRowsGo px py (r :: rest) y0 (fb, col)
        = drawRowsGo px py rest (y0 + 1)
            (fun a b =>
              if px ≤ a ∧ a < px + 8 ∧ b = py + y0 ∧ a < 64 ∧ b < 32
              then xor (spriteBit r (a - px)) (fb a b) else fb a b,
             col || (List.range 8).any (fun x =>
               spriteBit r x && decide (px + x < 64) && decide (py + y0 < 32)
                 && fb (px + x) (py + y0))) := by
      simp only [drawRowsGo]
      rw [hfold]
    obtain ⟨ih1, ih2⟩ := ih (y0 + 1)
      (fun a b =>
        if px ≤ a ∧ a < px + 8 ∧ b = py + y0 ∧ a < 64 ∧ b < 32
        then xor (spriteBit r (a - px)) (fb a b) else fb a b)
      (col || (List.range 8).any (fun x =>
        spriteBit r x && decide (px + x < 64) && decide (py + y0 < 32)
          && fb (px + x) (py + y0)))
    constructor
    · rw [hstep, ih1]
      funext a b
      by_cases hrow0 : b = py + y0
      · subst hrow0
        rw [if_neg (by omega)]
        by_cases hc : px ≤ a ∧ a < px + 8 ∧ py + y0 = py + y0 ∧ a < 64 ∧ py + y0 < 32
        · rw [if_pos hc, if_pos (by simp only [List.length_cons]; omega : px ≤ a ∧ a < px + 8 ∧
            py + y0 ≤ py + y0 ∧ py + y0 < py + y0 + (r :: rest).length ∧ a < 64 ∧ py + y0 < 32)]
          rw [show py + y0 - (py + y0) = 0 from by omega]
          rfl
        · rw [if_neg hc, if_neg (by simp only [List.length_cons]; omega)]
      · have hkey : (if px ≤ a ∧ a < px + 8 ∧ b = py + y0 ∧ a < 64 ∧ b < 32
            then xor (spriteBit r (a - px)) (fb a b) else fb a b) = fb a b :=
          if_neg (fun hc => hrow0 hc.2.2.1)
        rw [hkey]
        by_cases hin : px ≤ a ∧ a < px + 8 ∧ py + y0 ≤ b ∧
            b < py + y0 + (r :: rest).length ∧ a < 64 ∧ b < 32
        · rw [if_pos hin, if_pos (by simp at hin ⊢; omega : px ≤ a ∧ a < px + 8 ∧
            py + (y0 + 1) ≤ b ∧ b < py + (y0 + 1) + rest.length ∧ a < 64 ∧ b < 32)]
          have hb : b - (py + y0) = (b - (py + (y0 + 1))) + 1 := by omega
          rw [hb, List.getD_cons_succ]
        · rw [if_neg hin, if_neg (by simp at hin ⊢; omega)]
    · rw [hstep, ih2]
      have hF1row : ∀ (x i : Nat),
          (if px ≤ px + x ∧ px + x < px + 8 ∧ py + (y0 + 1 + i) = py + y0 ∧
              px + x < 64 ∧ py + (y0 + 1 + i) < 32
            then xor (spriteBit r (px + x - px)) (fb (px + x) (py + (y0 + 1 + i)))
            else fb (px + x) (py + (y0 + 1 + i)))
          = fb (px + x) (py + (y0 + 1 + i)) :=
        fun x i => if_neg (by omega)
      simp only [hF1row, Bool.or_eq_true, List.any_eq_true, List.mem_range,
        Bool.and_eq_true, decide_eq_true_eq]
      constructor
      · rintro ((hcol | ⟨x, hx, ⟨⟨hbit, h64⟩, h32⟩, hfb⟩) | ⟨i, hi, x, hx, hbit, h64, h32, hfb⟩)
        · exact Or.inl hcol
        · refine Or.inr ⟨0, by simp, x, hx, ?_, h64, by omega, ?_⟩
          · simpa using hbit
          · simpa using hfb
        · refine Or.inr ⟨i + 1, by simp [List.length_cons]; omega, x, hx, ?_, h64, by omega, ?_⟩
          · rw [List.getD_cons_succ]
            exact hbit
          · rw [show py + (y0 + (i + 1)) = py + (y0 + 1 + i) from by omega]
            exact hfb
      · rintro (hcol | ⟨i, hi, x, hx, hbit, h64, h32, hfb⟩)
        · exact Or.inl (Or.inl hcol)
        · cases i with
          | zero =>
            refine Or.inl (Or.inr ⟨x, hx, ⟨⟨?_, h64⟩, by omega⟩, ?_⟩)
            · simpa using hbit
            · simpa using hfb
          | succ j =>
            refine Or.inr ⟨j, by simp [List.length_cons] at hi; omega, x, hx, ?_, h64, by omega, ?_⟩
            · rw [List.getD_cons_succ] at hbit
              exact hbit
            · rw [show py + (y0 + 1 + j) = py + (y0 + (j + 1)) from by omega]
              exact hfb

theorem draw_sprite_common_fst (px py : Nat) (sprite : List Nat) (fb : Framebuffer) :
    (draw_sprite_common px py sprite fb).1 = fun a b =>
      if px ≤ a ∧ a < px + 8 ∧ py ≤ b ∧ b < py + sprite.length ∧ a < 64 ∧ b < 32
      then xor (spriteBit (sprite.getD (b - py) 0) (a - px)) (fb a b) else fb a b := by
  obtain ⟨h1, -⟩ := drawRowsGo_spec px py sprite 0 fb false
  unfold draw_sprite_common
  rw [h1]
  funext a b
  simp only [Nat.add_zero]

theorem draw_sprite_common_snd (px py : Nat) (sprite : List Nat) (fb : Framebuffer) :
    (draw_sprite_common px py sprite fb).2 = true ↔
      ∃ i, i < sprite.length ∧ ∃ x, x < 8 ∧ spriteBit (sprite.getD i 0) x = true ∧
        px + x < 64 ∧ py + i < 32 ∧ fb (px + x) (py + i) = true := by
  obtain ⟨-, h2⟩ := drawRowsGo_spec px py sprite 0 fb false
  unfold draw_sprite_common
  rw [h2]
  simp only [Bool.false_eq_true, false_or, Nat.add_zero, Nat.zero_add]

/-- C8: for kinds Chip8 and Chip48, draw_sprite wraps the entry position to
`(x % 63, y % 31)` and hands it to the common blit; the blit XORs each
sprite bit — MSB first within each row byte — into the 8-wide,
`sprite.length`-tall block at the wrapped position, clipping (not wrapping)
every pixel whose coordinate reaches x ≥ 64 or y ≥ 32; and the returned
flag is true iff some on-bit of the sprite landed on an already-on pixel. -/
theorem c8_draw_sprite_spec (kind : Chip8Kind)
    (hk : kind = Chip8Kind.chip8 ∨ kind = Chip8Kind.chip48)
    (position : Nat × Nat) (sprite : List Nat) (fb : Framebuffer) :
    Chip8Display.draw_sprite kind position sprite fb
      = some (draw_sprite_common (position.1 % 63) (position.2 % 31) sprite fb) ∧
    ((draw_sprite_common (position.1 % 63) (position.2 % 31) sprite fb).1 = fun a b =>
      if position.1 % 63 ≤ a ∧ a < position.1 % 63 + 8 ∧ position.2 % 31 ≤ b ∧
          b < position.2 % 31 + sprite.length ∧ a < 64 ∧ b < 32
      then xor (spriteBit (sprite.getD (b - position.2 % 31) 0) (a - position.1 % 63)) (fb a b)
      else fb a b) ∧
    ((draw_sprite_common (position.1 % 63) (position.2 % 31) sprite fb).2 = true ↔
      ∃ i, i < sprite.length ∧ ∃ x, x < 8 ∧ spriteBit (sprite.getD i 0) x = true ∧
        position.1 % 63 + x < 64 ∧ position.2 % 31 + i < 32 ∧
        fb (position.1 % 63 + x) (position.2 % 31 + i) = true) :=
  ⟨by rcases hk with rfl | rfl <;> rfl,
   draw_sprite_common_fst _ _ sprite fb,
   draw_sprite_common_snd _ _ sprite fb⟩

/-- An all-off framebuffer. -/
def fbOff : Framebuffer := fun _ _ => false

/-- Witness for C8 at kind Chip8, position (70, 40), one-row sprite 0x3C. -/
theorem c8_draw_sprite_spec_witness :
    Chip8Display.draw_sprite Chip8Kind.chip8 (70, 40) [60] fbOff
      = some (draw_sprite_common (70 % 63) (40 % 31) [60] fbOff) ∧
    ((draw_sprite_common (70 % 63) (40 % 31) [60] fbOff).1 = fun a b =>
      if 70 % 63 ≤ a ∧ a < 70 % 63 + 8 ∧ 40 % 31 ≤ b ∧
          b < 40 % 31 + [60].length ∧ a < 64 ∧ b < 32
      then xor (spriteBit ([60].getD (b - 40 % 31) 0) (a - 70 % 63)) (fbOff a b)
      else fbOff a b) ∧
    ((draw_sprite_common (70 % 63) (40 % 31) [60] fbOff).2 = true ↔
      ∃ i, i < [60].length ∧ ∃ x, x < 8 ∧ spriteBit ([60].getD i 0) x = true ∧
        70 % 63 + x < 64 ∧ 40 % 31 + i < 32 ∧
        fbOff (70 % 63 + x) (40 % 31 + i) = true) :=
  c8_draw_sprite_spec Chip8Kind.chip8 (Or.inl rfl) (70, 40) [60] fbOff

/-- A framebuffer with exactly the pixel (0,0) on. -/
def fbOn00 : Framebuffer := fun a b => decide (a = 0 ∧ b = 0)

/-- C9 counterexample: start from a framebuffer whose pixel (0,0) is on and
draw the one-byte sprite 0x80 (only its MSB, a non-clipped bit at (0,0), is
on) at (0,0) twice.  The claim predicts the second call collides because a
non-clipped sprite bit is on; in fact the first call turned the pixel off,
so the second call returns collided = false. -/
theorem c9_sprite_twice_counterexample :
    (Chip8Display.draw_sprite Chip8Kind.chip8 (0, 0) [128] fbOn00).map
        (fun r1 => (Chip8Display.draw_sprite Chip8Kind.chip8 (0, 0) [128] r1.1).map Prod.snd)
      = some (some false) ∧
    spriteBit 128 0 = true ∧ (0 : Nat) < 64 ∧ (0 : Nat) < 32 ∧ fbOn00 0 0 = true := by
  refine ⟨?_, by decide, by decide, by decide, by decide⟩
  decide

/-- C9 amended: drawing the same sprite twice at the same position restores
the framebuffer exactly (clipped pixels are never written at all, so no
"up to clipping" caveat is needed), and the second call returns
collided = true iff some non-clipped on-bit of the sprite lies on a pixel
that was off before the first call — equivalently, on an on-pixel the first
call produced — not merely iff some non-clipped bit of the sprite is on. -/
theorem c9_sprite_xor_law (kind : Chip8Kind)
    (hk : kind = Chip8Kind.chip8 ∨ kind = Chip8Kind.chip48)
    (position : Nat × Nat) (sprite : List Nat) (fb : Framebuffer)
    (r1 r2 : Framebuffer × Bool)
    (h1 : Chip8Display.draw_sprite kind position sprite fb = some r1)
    (h2 : Chip8Display.draw_sprite kind position sprite r1.1 = some r2) :
    r2.1 = fb ∧
    (r2.2 = true ↔ ∃ i, i < sprite.length ∧ ∃ x, x < 8 ∧
      spriteBit (sprite.getD i 0) x = true ∧ position.1 % 63 + x < 64 ∧
      position.2 % 31 + i < 32 ∧
      fb (position.1 % 63 + x) (position.2 % 31 + i) = false) := by
  have hd : ∀ g : Framebuffer, Chip8Display.draw_sprite kind position sprite g
      = some (draw_sprite_common (position.1 % 63) (position.2 % 31) sprite g) := by
    intro g
    rcases hk with rfl | rfl <;> rfl
  rw [hd] at h1 h2
  have e1 := Option.some.inj h1
  have e2 := Option.some.inj h2
  have hr1 : r1.1 = fun a b =>
      if position.1 % 63 ≤ a ∧ a < position.1 % 63 + 8 ∧ position.2 % 31 ≤ b ∧
          b < position.2 % 31 + sprite.length ∧ a < 64 ∧ b < 32
      then xor (spriteBit (sprite.getD (b - position.2 % 31) 0) (a - position.1 % 63)) (fb a b)
      else fb a b := by
    rw [← e1]
    exact draw_sprite_common_fst _ _ sprite fb
  constructor
  · rw [← e2, draw_sprite_common_fst]
    funext a b
    simp only [hr1]
    by_cases hC : position.1 % 63 ≤ a ∧ a < position.1 % 63 + 8 ∧ position.2 % 31 ≤ b ∧
        b < position.2 % 31 + sprite.length ∧ a < 64 ∧ b < 32
    · rw [if_pos hC, if_pos hC, ← Bool.xor_assoc, Bool.xor_self, Bool.false_xor]
    · rw [if_neg hC, if_neg hC]
  · rw [← e2, draw_sprite_common_snd]
    constructor
    · rintro ⟨i, hi, x, hx, hbit, h64, h32, hfb1⟩
      simp only [hr1] at hfb1
      rw [if_pos ⟨by omega, by omega, by omega, by omega, h64, h32⟩,
        show position.2 % 31 + i - position.2 % 31 = i from by omega,
        show position.1 % 63 + x - position.1 % 63 = x from by omega, hbit] at hfb1
      refine ⟨i, hi, x, hx, hbit, h64, h32, ?_⟩
      simpa using hfb1
    · rintro ⟨i, hi, x, hx, hbit, h64, h32, hfb⟩
      refine ⟨i, hi, x, hx, hbit, h64, h32, ?_⟩
      simp only [hr1]
      rw [if_pos ⟨by omega, by omega, by omega, by omega, h64, h32⟩,
        show position.2 % 31 + i - position.2 % 31 = i from by omega,
        show position.1 % 63 + x - position.1 % 63 = x from by omega, hbit, hfb]
      rfl

/-- Witness for C9 amended: kind Chip8, sprite 0xFF at (0,0) on an all-off
framebuffer. -/
theorem c9_sprite_xor_law_witness :
    (draw_sprite_common (0 % 63) (0 % 31) [255]
        (draw_sprite_common (0 % 63) (0 % 31) [255] fbOff).1).1 = fbOff ∧
    ((draw_sprite_common (0 % 63) (0 % 31) [255]
        (draw_sprite_common (0 % 63) (0 % 31) [255] fbOff).1).2 = true ↔
      ∃ i, i < [255].length ∧ ∃ x, x < 8 ∧
        spriteBit ([255].getD i 0) x = true ∧ (0 : Nat) % 63 + x < 64 ∧
        (0 : Nat) % 31 + i < 32 ∧
        fbOff ((0 : Nat) % 63 + x) ((0 : Nat) % 31 + i) = false) :=
  c9_sprite_xor_law Chip8Kind.chip8 (Or.inl rfl) (0, 0) [255] fbOff
    (draw_sprite_common (0 % 63) (0 % 31) [255] fbOff)
    (draw_sprite_common (0 % 63) (0 % 31) [255]
      (draw_sprite_common (0 % 63) (0 % 31) [255] fbOff).1)
    rfl rfl
